import Mathlib

/-!
Verification development for the openprod core synchronization runtime.

This file gives a shallow embedding of the storage layer
(`crates/storage/src/sqlite.rs`), the core data types (`crates/core`) and the
engine (`crates/engine/src/lib.rs`, `undo.rs`, `overlay.rs`), and proves
properties of the embedded definitions.

Modelling conventions:
* 16/32-byte identifiers are modelled as `Nat` (uniqueness is the only
  correctness-relevant property; SQLite BLOB byte-lexicographic comparison of
  the fixed-width ids is modelled by `Nat` order).
* `Hlc` is the pair `(wall_ms, counter)`; the source compares HLCs by their
  12-byte big-endian encoding, which coincides with lexicographic order on
  the pair, so the embedding compares the pair lexicographically.
* Field values and their msgpack encodings are opaque to every operation
  modelled here, so both are collapsed to a single opaque `Val := Nat`.
* SQL tables are association lists in row order; `INSERT` appends,
  `UPDATE`/upsert rewrites the matching row in place.  Primary-key violations
  surface as `StorageError` values, matching the rusqlite error paths.
* Ed25519 signing/verification is out of scope of the spec (abstract
  signer/verifier); an operation or bundle carries the abstract outcome of
  signature verification as a `Bool` field `sigValid`.
* Foreign-key enforcement is not modelled; all theorems are instantiated at
  states whose references exist.
-/

namespace OpenProd

abbrev EntityId := Nat
abbrev OpId := Nat
abbrev BundleId := Nat
abbrev EdgeId := Nat
abbrev ActorId := Nat
abbrev ConflictId := Nat
abbrev OverlayId := Nat

/-- Opaque field value (also stands for its msgpack encoding, which is
injective on values). -/
abbrev Val := Nat

/-- Hybrid logical clock timestamp `(wall_ms, counter)`; `core/src/hlc.rs`. -/
structure Hlc where
  wall : Nat
  counter : Nat
deriving DecidableEq, Repr

namespace Hlc

/-- Strict comparison; equals byte-lexicographic order of the 12-byte
big-endian encoding used by `Ord for Hlc`. -/
def ltb (a b : Hlc) : Bool :=
  a.wall < b.wall || (a.wall == b.wall && a.counter < b.counter)

def leb (a b : Hlc) : Bool :=
  ltb a b || a == b

theorem ltb_iff {a b : Hlc} :
    ltb a b = true ↔ a.wall < b.wall ∨ (a.wall = b.wall ∧ a.counter < b.counter) := by
  simp [ltb]

theorem ltb_irrefl (a : Hlc) : ltb a a = false := by
  simp [ltb]

theorem ltb_trans {a b c : Hlc} (h1 : ltb a b = true) (h2 : ltb b c = true) :
    ltb a c = true := by
  rw [ltb_iff] at *
  omega

theorem ltb_asymm {a b : Hlc} (h1 : ltb a b = true) : ltb b a = false := by
  rw [Bool.eq_false_iff]
  intro h2
  rw [ltb_iff] at h1 h2
  omega

theorem ltb_total (a b : Hlc) : ltb a b = true ∨ a = b ∨ ltb b a = true := by
  by_cases hw : a.wall = b.wall
  · by_cases hc : a.counter = b.counter
    · exact Or.inr (Or.inl (by cases a; cases b; simp_all))
    · rcases Nat.lt_or_ge a.counter b.counter with h | h
      · exact Or.inl (ltb_iff.mpr (Or.inr ⟨hw, h⟩))
      · exact Or.inr (Or.inr (ltb_iff.mpr (Or.inr ⟨hw.symm, by omega⟩)))
  · rcases Nat.lt_or_ge a.wall b.wall with h | h
    · exact Or.inl (ltb_iff.mpr (Or.inl h))
    · exact Or.inr (Or.inr (ltb_iff.mpr (Or.inl (by omega))))

theorem leb_of_ltb {a b : Hlc} (h : ltb a b = true) : leb a b = true := by
  simp [leb, h]

theorem leb_refl (a : Hlc) : leb a a = true := by
  simp [leb]

end Hlc

/-- Strict order on `(hlc, op_id)` pairs; the LWW upsert guard
`excluded.updated_at > updated_at OR (= AND excluded.source_op > source_op)`
compares exactly this key. -/
def keyLtb (h1 : Hlc) (o1 : OpId) (h2 : Hlc) (o2 : OpId) : Bool :=
  Hlc.ltb h1 h2 || (h1 == h2 && o1 < o2)

theorem keyLtb_irrefl (h : Hlc) (o : OpId) : keyLtb h o h o = false := by
  simp [keyLtb, Hlc.ltb_irrefl]

theorem keyLtb_trans {h1 h2 h3 : Hlc} {o1 o2 o3 : OpId}
    (a : keyLtb h1 o1 h2 o2 = true) (b : keyLtb h2 o2 h3 o3 = true) :
    keyLtb h1 o1 h3 o3 = true := by
  simp only [keyLtb, Bool.or_eq_true, Bool.and_eq_true, beq_iff_eq, decide_eq_true_eq] at *
  rcases a with a | ⟨rfl, a⟩ <;> rcases b with b | ⟨rfl, b⟩
  · exact Or.inl (Hlc.ltb_trans a b)
  · exact Or.inl a
  · exact Or.inl b
  · exact Or.inr ⟨rfl, Nat.lt_trans a b⟩

theorem keyLtb_total (h1 h2 : Hlc) (o1 o2 : OpId) :
    keyLtb h1 o1 h2 o2 = true ∨ (h1 = h2 ∧ o1 = o2) ∨ keyLtb h2 o2 h1 o1 = true := by
  simp only [keyLtb, Bool.or_eq_true, Bool.and_eq_true, beq_iff_eq, decide_eq_true_eq]
  rcases Hlc.ltb_total h1 h2 with h | rfl | h
  · exact Or.inl (Or.inl h)
  · rcases Nat.lt_trichotomy o1 o2 with ho | rfl | ho
    · exact Or.inl (Or.inr ⟨rfl, ho⟩)
    · exact Or.inr (Or.inl ⟨rfl, rfl⟩)
    · exact Or.inr (Or.inr (Or.inr ⟨rfl, ho⟩))
  · exact Or.inr (Or.inr (Or.inl h))

/-- Vector clock: map actor → max HLC; `core/src/vector_clock.rs` (BTreeMap,
modelled as an association list). -/
abbrev VectorClock := List (ActorId × Hlc)

/-- `VectorClock::get`. -/
def vcGet (vc : VectorClock) (a : ActorId) : Option Hlc :=
  (vc.find? (fun p => p.1 == a)).map (·.2)

/-- `VectorClock::update`: keep the max HLC per actor. -/
def vcUpdate (vc : VectorClock) (a : ActorId) (h : Hlc) : VectorClock :=
  match vcGet vc a with
  | none => vc ++ [(a, h)]
  | some _ =>
    vc.map (fun p => if p.1 = a then (a, if Hlc.ltb p.2 h then h else p.2) else p)

/-- Tagged operation payloads (`core/src/operations.rs::OperationPayload`).
Only the variants the storage layer materializes are given distinct
constructors; `applyCrdt` additionally stands in for the whole carried-only
family (`ApplyCrdt`, `ClearAndAdd`, `CreateOrderedEdge`, `MoveOrderedEdge`,
`LinkTables`, `UnlinkTables`, `AddToTable`, `RemoveFromTable`,
`ConfirmFieldMapping`, `MergeEntities`, `SplitEntity`, `CreateRule`), all of
which materialize to a no-op. -/
inductive OperationPayload where
  | createEntity (entityId : EntityId) (initialTable : Option String)
  | deleteEntity (entityId : EntityId) (cascadeEdges : List EdgeId)
  | attachFacet (entityId : EntityId) (facetType : String)
  | detachFacet (entityId : EntityId) (facetType : String) (preserveValues : Bool)
  | restoreFacet (entityId : EntityId) (facetType : String)
  | setField (entityId : EntityId) (fieldKey : String) (value : Val)
  | clearField (entityId : EntityId) (fieldKey : String)
  | createEdge (edgeId : EdgeId) (edgeType : String) (sourceId : EntityId)
      (targetId : EntityId) (properties : List (String × Val))
  | deleteEdge (edgeId : EdgeId)
  | setEdgeProperty (edgeId : EdgeId) (propertyKey : String) (value : Val)
  | clearEdgeProperty (edgeId : EdgeId) (propertyKey : String)
  | restoreEntity (entityId : EntityId)
  | restoreEdge (edgeId : EdgeId)
  | resolveConflict (conflictId : ConflictId) (entityId : EntityId)
      (fieldKey : String) (chosenValue : Option Val)
  | applyCrdt (entityId : EntityId) (fieldKey : String) (delta : Val)
deriving DecidableEq, Repr

/-- `OperationPayload::entity_id` (primary entity this operation targets). -/
def OperationPayload.entityIdOf : OperationPayload → Option EntityId
  | .createEntity e _ => some e
  | .deleteEntity e _ => some e
  | .attachFacet e _ => some e
  | .detachFacet e _ _ => some e
  | .restoreFacet e _ => some e
  | .setField e _ _ => some e
  | .clearField e _ => some e
  | .createEdge _ _ src _ _ => some src
  | .deleteEdge _ => none
  | .setEdgeProperty _ _ _ => none
  | .clearEdgeProperty _ _ => none
  | .restoreEntity e => some e
  | .restoreEdge _ => none
  | .resolveConflict _ e _ _ => some e
  | .applyCrdt e _ _ => some e

/-- `OperationPayload::op_type_name`. -/
def OperationPayload.opTypeName : OperationPayload → String
  | .createEntity _ _ => "CreateEntity"
  | .deleteEntity _ _ => "DeleteEntity"
  | .attachFacet _ _ => "AttachFacet"
  | .detachFacet _ _ _ => "DetachFacet"
  | .restoreFacet _ _ => "RestoreFacet"
  | .setField _ _ _ => "SetField"
  | .clearField _ _ => "ClearField"
  | .createEdge _ _ _ _ _ => "CreateEdge"
  | .deleteEdge _ => "DeleteEdge"
  | .setEdgeProperty _ _ _ => "SetEdgeProperty"
  | .clearEdgeProperty _ _ => "ClearEdgeProperty"
  | .restoreEntity _ => "RestoreEntity"
  | .restoreEdge _ => "RestoreEdge"
  | .resolveConflict _ _ _ _ => "ResolveConflict"
  | .applyCrdt _ _ _ => "ApplyCrdt"

/-- Bundle types (`core/src/operations.rs::BundleType`). -/
inductive BundleType where
  | userEdit
  | scriptOutput
  | importB
  | system
deriving DecidableEq, Repr

/-- A signed operation; doubles as the oplog row it is stored into
(`module_versions` and the raw signature bytes are never read back by the
modelled code paths and are omitted; `sigValid` is the abstract outcome of
`Operation::verify_signature`). -/
structure Operation where
  opId : OpId
  actorId : ActorId
  hlc : Hlc
  bundleId : BundleId
  payload : OperationPayload
  sigValid : Bool
deriving DecidableEq, Repr

/-- A signed bundle (`core/src/operations.rs::Bundle`); checksum, creates,
deletes and meta are write-only in the modelled paths and omitted;
`sigValid` abstracts signature verification of the bundle. -/
structure Bundle where
  bundleId : BundleId
  actorId : ActorId
  hlc : Hlc
  bundleType : BundleType
  creatorVc : Option VectorClock
  sigValid : Bool
deriving DecidableEq, Repr

/-- Row of the `fields` table (also used for `edge_properties`, which has the
same shape). `value = none` is a tombstone (SQL NULL). -/
structure FieldRow where
  value : Option Val
  sourceOp : OpId
  sourceActor : ActorId
  updatedAt : Hlc
deriving DecidableEq, Repr

/-- Row of the `entities` table. -/
structure EntityRow where
  createdAt : Hlc
  createdBy : ActorId
  createdInBundle : BundleId
  deletedAt : Option Hlc
  deletedBy : Option ActorId
  deletedInBundle : Option BundleId
deriving DecidableEq, Repr

/-- Row of the `facets` table; `preserveValues` is the encoded snapshot blob
(list of `(field_key, value)` pairs). -/
structure FacetRow where
  attachedAt : Hlc
  attachedBy : ActorId
  attachedInBundle : BundleId
  detachedAt : Option Hlc
  detachedBy : Option ActorId
  detachedInBundle : Option BundleId
  preserveValues : Option (List (String × Val))
deriving DecidableEq, Repr

/-- Row of the `edges` table. -/
structure EdgeRow where
  edgeType : String
  sourceId : EntityId
  targetId : EntityId
  createdAt : Hlc
  createdBy : ActorId
  createdInBundle : BundleId
  deletedAt : Option Hlc
  deletedBy : Option ActorId
  deletedInBundle : Option BundleId
deriving DecidableEq, Repr

/-- Conflict status (`storage/src/traits.rs::ConflictStatus`). -/
inductive ConflictStatus where
  | isOpen
  | resolved
deriving DecidableEq, Repr

/-- One branch tip (`storage/src/traits.rs::ConflictValue`, a row of
`conflict_values` keyed by `(conflict_id, actor_id)`). -/
structure ConflictValue where
  value : Option Val
  actorId : ActorId
  hlc : Hlc
  opId : OpId
deriving DecidableEq, Repr

/-- Row of the `conflicts` table together with its `conflict_values` rows
(`storage/src/traits.rs::ConflictRecord`). -/
structure ConflictRow where
  entityId : EntityId
  fieldKey : String
  status : ConflictStatus
  values : List ConflictValue
  detectedAt : Hlc
  detectedInBundle : BundleId
  resolvedAt : Option Hlc
  resolvedBy : Option ActorId
  resolvedOpId : Option OpId
  resolvedValue : Option Val
  reopenedAt : Option Hlc
  reopenedByOp : Option OpId
deriving DecidableEq, Repr

/-- Row of the `overlays` table. -/
structure OverlayRow where
  displayName : String
  source : String
  status : String
  createdAt : Hlc
  updatedAt : Hlc
deriving DecidableEq, Repr

/-- Row of the `overlay_ops` table (with its SQLite rowid). -/
structure OverlayOpRow where
  rowid : Nat
  overlayId : OverlayId
  opId : OpId
  hlc : Hlc
  payload : OperationPayload
  entityId : Option EntityId
  fieldKey : Option String
  opType : String
  canonicalValueAtCreation : Option Val
  canonicalDrifted : Bool
deriving DecidableEq, Repr

/-- Storage-layer error taxonomy (`storage/src/error.rs`), restricted to the
variants the modelled code paths can produce. -/
inductive StorageError where
  | entityCollision (entityId : EntityId)
  | constraintViolation (what : String)
  | notFound (what : String)
deriving DecidableEq, Repr

/-- The whole SQLite database of one replica, tables as association lists in
row order. -/
structure Storage where
  bundles : List (BundleId × Bundle)
  oplog : List Operation
  entities : List (EntityId × EntityRow)
  fields : List ((EntityId × String) × FieldRow)
  facets : List ((EntityId × String) × FacetRow)
  edges : List (EdgeId × EdgeRow)
  edgeProps : List ((EdgeId × String) × FieldRow)
  actors : List (ActorId × Hlc)
  vectorClock : List (ActorId × Hlc)
  conflicts : List (ConflictId × ConflictRow)
  overlays : List (OverlayId × OverlayRow)
  overlayOps : List OverlayOpRow
deriving DecidableEq, Repr

/-- Empty database. -/
def Storage.empty : Storage :=
  ⟨[], [], [], [], [], [], [], [], [], [], [], []⟩

/-- Association-list lookup (first match; keys are unique in every table we
build, mirroring SQL primary keys). -/
def lookupA {κ α : Type} [DecidableEq κ] : List (κ × α) → κ → Option α
  | [], _ => none
  | p :: t, k => if p.1 = k then some p.2 else lookupA t k

/-- SQL `UPDATE ... WHERE key = k`: rewrite the matching row in place, no-op
when the row is absent (0 rows affected). -/
def updateA {κ α : Type} [DecidableEq κ] (m : List (κ × α)) (k : κ) (f : α → α) :
    List (κ × α) :=
  m.map (fun p => if p.1 = k then (k, f p.2) else p)

/-- SQL plain `INSERT` with primary key `k`: error on collision. -/
def insertA {κ α : Type} [DecidableEq κ] (m : List (κ × α)) (k : κ) (v : α)
    (err : StorageError) : Except StorageError (List (κ × α)) :=
  match lookupA m k with
  | some _ => .error err
  | none => .ok (m ++ [(k, v)])

@[simp] theorem exceptBind_ok {ε α β : Type} (a : α) (f : α → Except ε β) :
    (Except.ok (ε := ε) a >>= f) = f a := rfl

@[simp] theorem exceptBind_error {ε α β : Type} (e : ε) (f : α → Except ε β) :
    (Except.error (α := α) e >>= f) = Except.error e := rfl

@[simp] theorem exceptPure_eq_ok {ε α : Type} (a : α) :
    (pure a : Except ε α) = Except.ok a := rfl

@[simp] theorem lookupA_nil {κ α : Type} [DecidableEq κ] (k : κ) :
    lookupA ([] : List (κ × α)) k = none := rfl

@[simp] theorem lookupA_cons {κ α : Type} [DecidableEq κ] (p : κ × α)
    (t : List (κ × α)) (k : κ) :
    lookupA (p :: t) k = if p.1 = k then some p.2 else lookupA t k := rfl

theorem lookupA_append {κ α : Type} [DecidableEq κ] (l₁ l₂ : List (κ × α)) (k : κ) :
    lookupA (l₁ ++ l₂) k =
      match lookupA l₁ k with
      | some v => some v
      | none => lookupA l₂ k := by
  induction l₁ with
  | nil => simp
  | cons p t ih =>
    by_cases h : p.1 = k <;> simp [h, ih]

@[simp] theorem updateA_nil {κ α : Type} [DecidableEq κ] (k : κ) (f : α → α) :
    updateA ([] : List (κ × α)) k f = [] := rfl

@[simp] theorem updateA_cons {κ α : Type} [DecidableEq κ] (p : κ × α)
    (t : List (κ × α)) (k : κ) (f : α → α) :
    updateA (p :: t) k f = (if p.1 = k then (k, f p.2) else p) :: updateA t k f := rfl

theorem lookupA_updateA {κ α : Type} [DecidableEq κ] (m : List (κ × α)) (k k' : κ)
    (f : α → α) :
    lookupA (updateA m k f) k' =
      if k = k' then (lookupA m k).map f else lookupA m k' := by
  induction m with
  | nil => by_cases h : k = k' <;> simp [h]
  | cons p t ih =>
    by_cases h1 : p.1 = k
    · by_cases h2 : k = k'
      · subst h2; simp [h1, ih]
      · have h3 : ¬ p.1 = k' := fun he => h2 (h1 ▸ he)
        simp [h1, h2, h3, ih]
    · by_cases h2 : k = k'
      · subst h2
        simp [h1, ih]
      · by_cases h3 : p.1 = k'
        · have h4 : ¬ k' = k := fun he => h2 he.symm
          simp [h1, h2, h3, h4]
        · simp [h1, h2, h3, ih]

/-- The LWW upsert used for `fields` and `edge_properties`
(`sqlite.rs::materialize_op`, SetField/ClearField/ResolveConflict/
SetEdgeProperty/ClearEdgeProperty):
`INSERT ... ON CONFLICT(key) DO UPDATE SET ...
 WHERE excluded.updated_at > t.updated_at
    OR (excluded.updated_at = t.updated_at AND excluded.source_op > t.source_op)`. -/
def lwwUpsert {κ : Type} [DecidableEq κ] (m : List (κ × FieldRow)) (k : κ)
    (newRow : FieldRow) : List (κ × FieldRow) :=
  match lookupA m k with
  | none => m ++ [(k, newRow)]
  | some _ =>
    updateA m k (fun old =>
      if keyLtb old.updatedAt old.sourceOp newRow.updatedAt newRow.sourceOp then newRow
      else old)

/-- `sqlite.rs::materialize_op`: apply one operation payload to the
materialized tables. -/
def materializeOp (s : Storage) (op : Operation) (bundle : Bundle) :
    Except StorageError Storage :=
  match op.payload with
  | .createEntity e initialTable =>
    match lookupA s.entities e with
    | some _ => Except.error (.entityCollision e)
    | none =>
      match initialTable with
      | some facetType =>
        match insertA s.facets (e, facetType)
          ⟨op.hlc, op.actorId, bundle.bundleId, none, none, none, none⟩
          (.constraintViolation "facets") with
        | .error err => Except.error err
        | .ok facets => Except.ok { s with
            entities := s.entities ++
              [(e, ⟨op.hlc, op.actorId, bundle.bundleId, none, none, none⟩)],
            facets := facets }
      | none => Except.ok { s with
          entities := s.entities ++
            [(e, ⟨op.hlc, op.actorId, bundle.bundleId, none, none, none⟩)] }
  | .deleteEntity e cascadeEdges =>
    Except.ok { s with
      entities := updateA s.entities e (fun r =>
        { r with deletedAt := some op.hlc, deletedBy := some op.actorId,
                 deletedInBundle := some bundle.bundleId }),
      edges := cascadeEdges.foldl (fun es eid =>
        updateA es eid (fun r =>
          { r with deletedAt := some op.hlc, deletedBy := some op.actorId,
                   deletedInBundle := some bundle.bundleId })) s.edges }
  | .attachFacet e ft =>
    match lookupA s.facets (e, ft) with
    | none => Except.ok { s with facets := s.facets ++
        [((e, ft), ⟨op.hlc, op.actorId, bundle.bundleId, none, none, none, none⟩)] }
    | some _ => Except.ok { s with facets := updateA s.facets (e, ft) (fun _ =>
        ⟨op.hlc, op.actorId, bundle.bundleId, none, none, none, none⟩) }
  | .detachFacet e ft preserve =>
    if preserve then
      let preserved := (s.fields.filter
          (fun p => p.1.1 == e && p.2.value.isSome)).map
        (fun p => (p.1.2, p.2.value.getD 0))
      Except.ok { s with facets := updateA s.facets (e, ft) (fun r =>
        { r with detachedAt := some op.hlc, detachedBy := some op.actorId,
                 detachedInBundle := some bundle.bundleId,
                 preserveValues := some preserved }) }
    else
      Except.ok { s with facets := updateA s.facets (e, ft) (fun r =>
        { r with detachedAt := some op.hlc, detachedBy := some op.actorId,
                 detachedInBundle := some bundle.bundleId }) }
  | .setField e k v =>
    Except.ok { s with
      fields := lwwUpsert s.fields (e, k) ⟨some v, op.opId, op.actorId, op.hlc⟩ }
  | .clearField e k =>
    Except.ok { s with
      fields := lwwUpsert s.fields (e, k) ⟨none, op.opId, op.actorId, op.hlc⟩ }
  | .resolveConflict _ e k chosen =>
    Except.ok { s with
      fields := lwwUpsert s.fields (e, k) ⟨chosen, op.opId, op.actorId, op.hlc⟩ }
  | .createEdge id ty src tgt props =>
    match insertA s.edges id
      ⟨ty, src, tgt, op.hlc, op.actorId, bundle.bundleId, none, none, none⟩
      (.constraintViolation "edges") with
    | .error err => Except.error err
    | .ok edges =>
      match props.foldlM (fun eps kv =>
        insertA eps (id, kv.1) ⟨some kv.2, op.opId, op.actorId, op.hlc⟩
          (.constraintViolation "edge_properties")) s.edgeProps with
      | .error err => Except.error err
      | .ok eps => Except.ok { s with edges := edges, edgeProps := eps }
  | .setEdgeProperty id k v =>
    Except.ok { s with
      edgeProps := lwwUpsert s.edgeProps (id, k) ⟨some v, op.opId, op.actorId, op.hlc⟩ }
  | .clearEdgeProperty id k =>
    Except.ok { s with
      edgeProps := lwwUpsert s.edgeProps (id, k) ⟨none, op.opId, op.actorId, op.hlc⟩ }
  | .deleteEdge id =>
    Except.ok { s with edges := updateA s.edges id (fun r =>
      { r with deletedAt := some op.hlc, deletedBy := some op.actorId,
               deletedInBundle := some bundle.bundleId }) }
  | .restoreEntity e =>
    Except.ok { s with entities := updateA s.entities e (fun r =>
      { r with deletedAt := none, deletedBy := none, deletedInBundle := none }) }
  | .restoreEdge id =>
    Except.ok { s with edges := updateA s.edges id (fun r =>
      { r with deletedAt := none, deletedBy := none, deletedInBundle := none }) }
  | .restoreFacet e ft =>
    Except.ok { s with facets := updateA s.facets (e, ft) (fun r =>
      { r with detachedAt := none, detachedBy := none, detachedInBundle := none,
               preserveValues := none }) }
  | .applyCrdt _ _ _ => Except.ok s

/-- One iteration of the per-operation loop inside
`SqliteStorage::append_bundle`: oplog insert (`op_id` UNIQUE), materialize,
actors `INSERT OR IGNORE`, vector-clock upsert keeping the max HLC. -/
def appendOpStep (bundle : Bundle) (s : Storage) (op : Operation) :
    Except StorageError Storage :=
  if s.oplog.any (fun o => o.opId == op.opId) then
    Except.error (.constraintViolation "oplog.op_id")
  else
    match materializeOp { s with oplog := s.oplog ++ [op] } op bundle with
    | .error err => Except.error err
    | .ok s2 =>
      let newActors :=
        match lookupA s2.actors op.actorId with
        | some _ => s2.actors
        | none => s2.actors ++ [(op.actorId, op.hlc)]
      Except.ok { s2 with
        actors := newActors,
        vectorClock := vcUpdate s2.vectorClock op.actorId op.hlc }

/-- `SqliteStorage::append_bundle`: return success without side effects when
`bundle_id` is already present; otherwise insert the bundle row and process
every operation inside a savepoint (an error returns with no state change,
modelling the rollback). -/
def appendBundle (s : Storage) (bundle : Bundle) (operations : List Operation) :
    Except StorageError Storage :=
  match lookupA s.bundles bundle.bundleId with
  | some _ => Except.ok s
  | none =>
    let s1 := { s with bundles := s.bundles ++ [(bundle.bundleId, bundle)] }
    operations.foldlM (appendOpStep bundle) s1

/-- `SqliteStorage::get_field`: value of a field row, `NULL` (tombstone)
filtered out by the query. -/
def getField (s : Storage) (e : EntityId) (k : String) : Option Val :=
  match lookupA s.fields (e, k) with
  | some r => r.value
  | none => none

/-- `SqliteStorage::get_field_metadata`: `(source_actor, updated_at)` of the
row, present even for tombstones. -/
def getFieldMetadata (s : Storage) (e : EntityId) (k : String) :
    Option (ActorId × Hlc) :=
  (lookupA s.fields (e, k)).map (fun r => (r.sourceActor, r.updatedAt))

/-- `SqliteStorage::get_fields`: all non-NULL fields of an entity in row
order. -/
def getFields (s : Storage) (e : EntityId) : List (String × Val) :=
  (s.fields.filter (fun p => p.1.1 == e && p.2.value.isSome)).map
    (fun p => (p.1.2, p.2.value.getD 0))

/-- `SqliteStorage::get_entity` (the `deleted` flag of the returned record is
`deletedAt.isSome`). -/
def getEntity (s : Storage) (e : EntityId) : Option EntityRow :=
  lookupA s.entities e

/-- `SqliteStorage::get_edge`. -/
def getEdge (s : Storage) (id : EdgeId) : Option EdgeRow :=
  lookupA s.edges id

/-- `SqliteStorage::get_edge_property` (NULL filtered). -/
def getEdgeProperty (s : Storage) (id : EdgeId) (k : String) : Option Val :=
  match lookupA s.edgeProps (id, k) with
  | some r => r.value
  | none => none

/-- `SqliteStorage::op_count`. -/
def opCount (s : Storage) : Nat :=
  s.oplog.length

/-- `deleted` flag of an `EntityRecord` as returned by `get_entity`. -/
def EntityRow.deleted (r : EntityRow) : Bool :=
  r.deletedAt.isSome

/-- `deleted` flag of an `EdgeRecord` as returned by `get_edge`. -/
def EdgeRow.deleted (r : EdgeRow) : Bool :=
  r.deletedAt.isSome

/-- `detached` flag of a `FacetRecord` as returned by `get_facets`. -/
def FacetRow.detached (r : FacetRow) : Bool :=
  r.detachedAt.isSome

/-! ### LWW order-insensitivity (claim C1)

A fixed set of `SetField`/`ClearField` operations on one `(entity, field)`
is appended, one single-op bundle per operation, in an arbitrary order. -/

/-- Operation whose payload is a `SetField`/`ClearField` on `(e, k)`. -/
def isFieldWriteB (e : EntityId) (k : String) (op : Operation) : Bool :=
  match op.payload with
  | .setField e2 k2 _ => e2 == e && k2 == k
  | .clearField e2 k2 => e2 == e && k2 == k
  | _ => false

/-- The `fields` row a `SetField`/`ClearField` op carries into the LWW
upsert. -/
def writeRow (op : Operation) : FieldRow :=
  match op.payload with
  | .setField _ _ v => ⟨some v, op.opId, op.actorId, op.hlc⟩
  | _ => ⟨none, op.opId, op.actorId, op.hlc⟩

/-- What `get_field` reports when this op's row stands: the value for a
`SetField`, absent for a `ClearField` tombstone. -/
def valueOfWrite (op : Operation) : Option Val :=
  match op.payload with
  | .setField _ _ v => some v
  | _ => none

/-- Wrap one operation in its own single-op bundle (the bundle id reuses the
op id; ids only need to be unique). -/
def bundleOf (op : Operation) : Bundle :=
  ⟨op.opId, op.actorId, op.hlc, .userEdit, none, op.sigValid⟩

/-- Append a list of operations, each in its own bundle, in list order. -/
def appendBundles (s : Storage) (l : List Operation) :
    Except StorageError Storage :=
  l.foldlM (fun s op => appendBundle s (bundleOf op) [op]) s

@[simp] theorem writeRow_updatedAt (op : Operation) :
    (writeRow op).updatedAt = op.hlc := by
  cases h : op.payload <;> simp [writeRow, h]

@[simp] theorem writeRow_sourceOp (op : Operation) :
    (writeRow op).sourceOp = op.opId := by
  cases h : op.payload <;> simp [writeRow, h]

theorem writeRow_value (op : Operation) :
    (writeRow op).value = valueOfWrite op := by
  cases h : op.payload <;> simp [writeRow, valueOfWrite, h]

/-- Appending a field write in a fresh single-op bundle succeeds and only
runs the LWW upsert on `fields` (plus oplog/bundles/actors/vc bookkeeping). -/
theorem appendBundle_fieldWrite (s : Storage) (op : Operation) (e : EntityId)
    (k : String) (hw : isFieldWriteB e k op = true)
    (hb : lookupA s.bundles op.opId = none)
    (ho : ∀ o ∈ s.oplog, o.opId ≠ op.opId) :
    ∃ s2, appendBundle s (bundleOf op) [op] = .ok s2 ∧
      s2.fields = lwwUpsert s.fields (e, k) (writeRow op) ∧
      s2.bundles = s.bundles ++ [(op.opId, bundleOf op)] ∧
      s2.oplog = s.oplog ++ [op] := by
  have hany : s.oplog.any (fun o => o.opId == op.opId) = false := by
    rw [List.any_eq_false]
    intro o hmem
    simpa using ho o hmem
  unfold isFieldWriteB at hw
  split at hw
  next e2 k2 v hpl =>
    simp only [Bool.and_eq_true, beq_iff_eq] at hw
    obtain ⟨rfl, rfl⟩ := hw
    cases hres : appendBundle s (bundleOf op) [op] with
    | error err =>
      exfalso
      simp [appendBundle, bundleOf, hb, List.foldlM, appendOpStep, hany,
        materializeOp, hpl] at hres
    | ok s2 =>
      refine ⟨s2, rfl, ?_⟩
      simp only [appendBundle, bundleOf, hb, List.foldlM, appendOpStep, hany,
        materializeOp, hpl, Bool.false_eq_true, if_false, exceptBind_ok,
        exceptPure_eq_ok, Except.ok.injEq] at hres
      subst hres
      refine ⟨by simp [writeRow, hpl], by simp [bundleOf], by simp⟩
  next e2 k2 hpl =>
    simp only [Bool.and_eq_true, beq_iff_eq] at hw
    obtain ⟨rfl, rfl⟩ := hw
    cases hres : appendBundle s (bundleOf op) [op] with
    | error err =>
      exfalso
      simp [appendBundle, bundleOf, hb, List.foldlM, appendOpStep, hany,
        materializeOp, hpl] at hres
    | ok s2 =>
      refine ⟨s2, rfl, ?_⟩
      simp only [appendBundle, bundleOf, hb, List.foldlM, appendOpStep, hany,
        materializeOp, hpl, Bool.false_eq_true, if_false, exceptBind_ok,
        exceptPure_eq_ok, Except.ok.injEq] at hres
      subst hres
      refine ⟨by simp [writeRow, hpl], by simp [bundleOf], by simp⟩
  next =>
    exact absurd hw (by simp)

/-- Appending a list of fresh field writes succeeds, and the `fields` table
is the fold of the LWW upsert over the list. -/
theorem appendBundles_fieldWrites (e : EntityId) (k : String) :
    ∀ (l : List Operation) (s : Storage),
    (∀ op ∈ l, isFieldWriteB e k op = true) →
    (∀ op ∈ l, lookupA s.bundles op.opId = none) →
    (∀ op ∈ l, ∀ o ∈ s.oplog, o.opId ≠ op.opId) →
    (l.map (·.opId)).Nodup →
    ∃ s2, appendBundles s l = .ok s2 ∧
      s2.fields = l.foldl (fun fs op => lwwUpsert fs (e, k) (writeRow op)) s.fields := by
  intro l
  induction l with
  | nil => exact fun s _ _ _ _ => ⟨s, rfl, rfl⟩
  | cons op t ih =>
    intro s hw hb ho hnd
    obtain ⟨s1, happ, hf, hbun, hop⟩ :=
      appendBundle_fieldWrite s op e k (hw op (by simp)) (hb op (by simp))
        (fun o hm => ho op (by simp) o hm)
    simp only [List.map_cons, List.nodup_cons, List.mem_map] at hnd
    obtain ⟨s2, happ2, hf2⟩ := ih s1
      (fun o hm => hw o (by simp [hm]))
      (by
        intro o hm
        rw [hbun, lookupA_append, hb o (by simp [hm])]
        have hne : ¬ op.opId = o.opId := fun he => hnd.1 ⟨o, hm, he.symm⟩
        simp [hne])
      (by
        intro o hm o2 hmem
        rw [hop] at hmem
        rcases List.mem_append.mp hmem with h | h
        · exact ho o (by simp [hm]) o2 h
        · simp only [List.mem_singleton] at h
          subst h
          exact fun he => hnd.1 ⟨o, hm, he.symm⟩)
      hnd.2
    refine ⟨s2, ?_, ?_⟩
    · simpa [appendBundles, happ] using happ2
    · simpa [hf] using hf2

/-- The winner-so-far view of the LWW fold at one key. -/
def applyRow (acc : Option FieldRow) (op : Operation) : Option FieldRow :=
  match acc with
  | none => some (writeRow op)
  | some r =>
    some (if keyLtb r.updatedAt r.sourceOp op.hlc op.opId then writeRow op else r)

theorem lookupA_lwwUpsert_self {κ : Type} [DecidableEq κ]
    (m : List (κ × FieldRow)) (key : κ) (new : FieldRow) :
    lookupA (lwwUpsert m key new) key =
      some (match lookupA m key with
        | none => new
        | some r =>
          if keyLtb r.updatedAt r.sourceOp new.updatedAt new.sourceOp then new
          else r) := by
  unfold lwwUpsert
  cases h : lookupA m key with
  | none => simp [lookupA_append, h]
  | some r => simp [lookupA_updateA, h]

theorem lookupA_lwwFold (key : EntityId × String) :
    ∀ (l : List Operation) (fs : List ((EntityId × String) × FieldRow)),
    lookupA (l.foldl (fun fs op => lwwUpsert fs key (writeRow op)) fs) key =
      l.foldl applyRow (lookupA fs key) := by
  intro l
  induction l with
  | nil => intro fs; rfl
  | cons op t ih =>
    intro fs
    rw [List.foldl_cons, List.foldl_cons, ih, lookupA_lwwUpsert_self]
    cases h : lookupA fs key with
    | none => simp [applyRow]
    | some r => simp [applyRow]

/-- The fold that keeps the operation with maximal `(hlc, op_id)`, ties in
favour of the earlier-standing element, exactly like the strict LWW guard. -/
def maxStep (acc : Option Operation) (op : Operation) : Option Operation :=
  match acc with
  | none => some op
  | some a => if keyLtb a.hlc a.opId op.hlc op.opId then some op else some a

theorem applyRow_eq_maxStep :
    ∀ (l : List Operation) (acc : Option Operation),
    l.foldl applyRow (acc.map writeRow) = (l.foldl maxStep acc).map writeRow := by
  intro l
  induction l with
  | nil => intro acc; rfl
  | cons op t ih =>
    intro acc
    rw [List.foldl_cons, List.foldl_cons]
    have hstep : applyRow (acc.map writeRow) op = (maxStep acc op).map writeRow := by
      cases acc with
      | none => rfl
      | some a =>
        simp only [Option.map_some, applyRow, maxStep, writeRow_updatedAt,
          writeRow_sourceOp]
        by_cases h : keyLtb a.hlc a.opId op.hlc op.opId = true <;> simp [h]
    rw [hstep, ih]

theorem maxStep_fold_mem :
    ∀ (l : List Operation) (acc : Option Operation) (x : Operation),
    l.foldl maxStep acc = some x → x ∈ l ∨ acc = some x := by
  intro l
  induction l with
  | nil => intro acc x h; exact Or.inr h
  | cons op t ih =>
    intro acc x h
    rw [List.foldl_cons] at h
    rcases ih (maxStep acc op) x h with hm | hm
    · exact Or.inl (by simp [hm])
    · cases acc with
      | none =>
        simp only [maxStep, Option.some.injEq] at hm
        exact Or.inl (by simp [hm])
      | some a =>
        simp only [maxStep] at hm
        by_cases hlt : keyLtb a.hlc a.opId op.hlc op.opId = true
        · rw [if_pos hlt] at hm
          cases hm
          exact Or.inl (by simp)
        · rw [if_neg hlt] at hm
          exact Or.inr hm

theorem maxStep_fold_notlt :
    ∀ (l : List Operation) (acc : Option Operation) (x : Operation),
    l.foldl maxStep acc = some x →
      ((∀ op ∈ l, keyLtb x.hlc x.opId op.hlc op.opId = false) ∧
       (∀ a, acc = some a → keyLtb x.hlc x.opId a.hlc a.opId = false)) := by
  intro l
  induction l with
  | nil =>
    intro acc x h
    refine ⟨by simp, ?_⟩
    intro a ha
    rw [ha] at h
    cases h
    simp [keyLtb_irrefl]
  | cons op t ih =>
    intro acc x h
    rw [List.foldl_cons] at h
    obtain ⟨iht, ihacc⟩ := ih (maxStep acc op) x h
    have hnotop : keyLtb x.hlc x.opId op.hlc op.opId = false := by
      cases acc with
      | none => exact ihacc op rfl
      | some a =>
        by_cases hlt : keyLtb a.hlc a.opId op.hlc op.opId = true
        · exact ihacc op (by simp [maxStep, hlt])
        · have hxa : keyLtb x.hlc x.opId a.hlc a.opId = false :=
            ihacc a (by simp [maxStep, hlt])
          rw [Bool.eq_false_iff]
          intro hxop
          rcases keyLtb_total op.hlc a.hlc op.opId a.opId with hoa | ⟨he1, he2⟩ | hao
          · exact (Bool.eq_false_iff.mp hxa) (keyLtb_trans hxop hoa)
          · rw [he1, he2] at hxop
            exact (Bool.eq_false_iff.mp hxa) hxop
          · exact hlt hao
    refine ⟨?_, ?_⟩
    · intro o hmem
      rcases List.mem_cons.mp hmem with rfl | hmem
      · exact hnotop
      · exact iht o hmem
    · intro a ha
      subst ha
      cases hacc : maxStep (some a) op with
      | none => simp [maxStep] at hacc; split at hacc <;> cases hacc
      | some b =>
        have hxb := ihacc b hacc
        simp only [maxStep] at hacc
        by_cases hlt : keyLtb a.hlc a.opId op.hlc op.opId = true
        · rw [if_pos hlt] at hacc
          cases hacc
          rw [Bool.eq_false_iff]
          intro hxa
          exact (Bool.eq_false_iff.mp hxb) (keyLtb_trans hxa hlt)
        · rw [if_neg hlt] at hacc
          cases hacc
          exact hxb

theorem maxStep_fold_isSome :
    ∀ (l : List Operation) (a : Operation),
    (l.foldl maxStep (some a)).isSome = true := by
  intro l
  induction l with
  | nil => intro a; rfl
  | cons op t ih =>
    intro a
    rw [List.foldl_cons]
    show (t.foldl maxStep (maxStep (some a) op)).isSome = true
    simp only [maxStep]
    by_cases h : keyLtb a.hlc a.opId op.hlc op.opId = true
    · rw [if_pos h]; exact ih op
    · rw [if_neg h]; exact ih a

/-- Claim C1: for a fixed set of SetField/ClearField operations on the same
`(entity_id, field_key)` appended from empty storage in any permutation via
single-op bundle appends, `get_field` reports the operation with the maximum
`(hlc, op_id)` in lexicographic order (absent when that winner is a
ClearField): LWW materialization is order-insensitive. -/
theorem lww_order_insensitive (e : EntityId) (k : String)
    (l l2 : List Operation) (hperm : l.Perm l2)
    (hw : ∀ op ∈ l, isFieldWriteB e k op = true)
    (hnd : (l.map (·.opId)).Nodup)
    (m : Operation) (hm : m ∈ l)
    (hmax : ∀ op ∈ l, op ≠ m → keyLtb op.hlc op.opId m.hlc m.opId = true)
    (s2 : Storage) (happ : appendBundles Storage.empty l2 = .ok s2) :
    getField s2 e k = valueOfWrite m := by
  have hw2 : ∀ op ∈ l2, isFieldWriteB e k op = true :=
    fun op hmem => hw op (hperm.mem_iff.mpr hmem)
  have hnd2 : (l2.map (·.opId)).Nodup := (hperm.map (·.opId)).nodup_iff.mp hnd
  obtain ⟨s3, happ3, hfields⟩ :=
    appendBundles_fieldWrites e k l2 Storage.empty hw2
      (fun op _ => rfl) (fun op _ o hmem => absurd hmem (List.not_mem_nil o))
      hnd2
  rw [happ] at happ3
  injection happ3 with heq
  subst heq
  have hl2ne : l2 ≠ [] := by
    intro hnil
    subst hnil
    have hln : l = [] := List.perm_nil.mp hperm
    subst hln
    exact absurd hm (List.not_mem_nil m)
  obtain ⟨op0, t0, rfl⟩ := List.exists_cons_of_ne_nil hl2ne
  have hsome := maxStep_fold_isSome t0 op0
  obtain ⟨x, hx⟩ := Option.isSome_iff_exists.mp hsome
  have hfold : (op0 :: t0).foldl maxStep none = some x := by
    rw [List.foldl_cons]; exact hx
  have hxm : x = m := by
    rcases maxStep_fold_mem _ _ _ hfold with hmem | hc
    · by_contra hne
      have hlt := hmax x (hperm.mem_iff.mpr hmem) hne
      have hnot := (maxStep_fold_notlt _ _ _ hfold).1 m (hperm.mem_iff.mp hm)
      exact (Bool.eq_false_iff.mp hnot) hlt
    · cases hc
  subst hxm
  unfold getField
  rw [hfields]
  rw [show (Storage.empty).fields = ([] : List ((EntityId × String) × FieldRow)) from rfl]
  rw [lookupA_lwwFold]
  have happly := applyRow_eq_maxStep (op0 :: t0) none
  rw [show ((none : Option Operation).map writeRow) = (none : Option FieldRow) from rfl]
    at happly
  rw [lookupA_nil, happly, hfold]
  simp [writeRow_value]

/-- Concrete earlier write for the C1 witness. -/
def c1OpEarly : Operation :=
  ⟨10, 1, ⟨1000, 0⟩, 10, .setField 1 "name" 5, true⟩

/-- Concrete later (winning) write for the C1 witness. -/
def c1OpLate : Operation :=
  ⟨11, 1, ⟨2000, 0⟩, 11, .setField 1 "name" 7, true⟩

/-- Storage obtained by appending the two C1 witness writes out of order. -/
def c1State : Storage :=
  match appendBundles Storage.empty [c1OpLate, c1OpEarly] with
  | .ok s => s
  | .error _ => Storage.empty

/-- Witness: the C1 theorem applied to two concrete same-field writes
appended in reverse HLC order still reports the later write. -/
theorem lww_order_insensitive_witness :
    getField c1State 1 "name" = some 7 := by
  have h := lww_order_insensitive 1 "name" [c1OpEarly, c1OpLate]
    [c1OpLate, c1OpEarly] (by decide) (by decide) (by decide) c1OpLate
    (by decide) (by decide) c1State (by rfl)
  exact h.trans rfl

/-! ### Append idempotence (claim C3) -/

theorem exceptBind_eq_ok {ε α β : Type} {x : Except ε α} {f : α → Except ε β}
    {b : β} (h : (x >>= f) = .ok b) : ∃ a, x = .ok a ∧ f a = .ok b := by
  cases x with
  | ok a => exact ⟨a, rfl, h⟩
  | error e => simp at h

/-- `materialize_op` writes only the materialized tables: the bundles,
oplog, actors, vector-clock, conflicts and overlay tables are untouched. -/
theorem materializeOp_frame (s : Storage) (op : Operation) (b : Bundle)
    (s2 : Storage) (h : materializeOp s op b = .ok s2) :
    s2.bundles = s.bundles ∧ s2.oplog = s.oplog ∧ s2.actors = s.actors ∧
    s2.vectorClock = s.vectorClock ∧ s2.conflicts = s.conflicts ∧
    s2.overlays = s.overlays ∧ s2.overlayOps = s.overlayOps := by
  unfold materializeOp at h
  split at h
  next e initTable =>
    split at h
    · cases h
    · split at h
      next ft =>
        split at h
        · cases h
        · injection h with h
          subst h
          exact ⟨rfl, rfl, rfl, rfl, rfl, rfl, rfl⟩
      next =>
        injection h with h
        subst h
        exact ⟨rfl, rfl, rfl, rfl, rfl, rfl, rfl⟩
  next e cascade =>
    injection h with h
    subst h
    exact ⟨rfl, rfl, rfl, rfl, rfl, rfl, rfl⟩
  next e ft =>
    split at h <;> (injection h with h; subst h)
    · exact ⟨rfl, rfl, rfl, rfl, rfl, rfl, rfl⟩
    · exact ⟨rfl, rfl, rfl, rfl, rfl, rfl, rfl⟩
  next e ft preserve =>
    split at h <;> (injection h with h; subst h)
    · exact ⟨rfl, rfl, rfl, rfl, rfl, rfl, rfl⟩
    · exact ⟨rfl, rfl, rfl, rfl, rfl, rfl, rfl⟩
  next e k v =>
    injection h with h; subst h
    exact ⟨rfl, rfl, rfl, rfl, rfl, rfl, rfl⟩
  next e k =>
    injection h with h; subst h
    exact ⟨rfl, rfl, rfl, rfl, rfl, rfl, rfl⟩
  next cid e k chosen =>
    injection h with h; subst h
    exact ⟨rfl, rfl, rfl, rfl, rfl, rfl, rfl⟩
  next id ty src tgt props =>
    split at h
    · cases h
    · split at h
      · cases h
      · injection h with h; subst h
        exact ⟨rfl, rfl, rfl, rfl, rfl, rfl, rfl⟩
  next id k v =>
    injection h with h; subst h
    exact ⟨rfl, rfl, rfl, rfl, rfl, rfl, rfl⟩
  next id k =>
    injection h with h; subst h
    exact ⟨rfl, rfl, rfl, rfl, rfl, rfl, rfl⟩
  next id =>
    injection h with h; subst h
    exact ⟨rfl, rfl, rfl, rfl, rfl, rfl, rfl⟩
  next e =>
    injection h with h; subst h
    exact ⟨rfl, rfl, rfl, rfl, rfl, rfl, rfl⟩
  next id =>
    injection h with h; subst h
    exact ⟨rfl, rfl, rfl, rfl, rfl, rfl, rfl⟩
  next e ft =>
    injection h with h; subst h
    exact ⟨rfl, rfl, rfl, rfl, rfl, rfl, rfl⟩
  next e k d =>
    injection h with h; subst h
    exact ⟨rfl, rfl, rfl, rfl, rfl, rfl, rfl⟩

/-- One append-loop step preserves the bundles table. -/
theorem appendOpStep_bundles (b : Bundle) (s : Storage) (op : Operation)
    (s2 : Storage) (h : appendOpStep b s op = .ok s2) :
    s2.bundles = s.bundles := by
  unfold appendOpStep at h
  split at h
  · cases h
  · split at h
    · cases h
    next sm hmat =>
      have hfr := (materializeOp_frame _ _ _ _ hmat).1
      injection h with h
      subst h
      simpa using hfr

/-- The whole append loop preserves the bundles table. -/
theorem appendLoop_bundles (b : Bundle) :
    ∀ (ops : List Operation) (s s2 : Storage),
    ops.foldlM (appendOpStep b) s = .ok s2 → s2.bundles = s.bundles := by
  intro ops
  induction ops with
  | nil =>
    intro s s2 h
    injection h with h
    subst h
    rfl
  | cons op t ih =>
    intro s s2 h
    rw [List.foldlM_cons] at h
    obtain ⟨s1, hstep, h⟩ := exceptBind_eq_ok h
    exact (ih s1 s2 h).trans (appendOpStep_bundles b s op s1 hstep)

/-- A successful append leaves the bundle row present. -/
theorem appendBundle_bundle_present (s : Storage) (b : Bundle)
    (ops : List Operation) (s2 : Storage) (h : appendBundle s b ops = .ok s2) :
    (lookupA s2.bundles b.bundleId).isSome = true := by
  unfold appendBundle at h
  split at h
  next b0 hl =>
    injection h with h
    subst h
    simp [hl]
  next hl =>
    have hb := appendLoop_bundles b ops _ s2 h
    rw [hb]
    simp [lookupA_append, hl]

/-- Claim C3: `append_bundle` is idempotent.  First part: when the
`bundle_id` is already present, append returns success and the state is
unchanged (no side effects).  Second part: appending the same bundle again
after a successful append returns success and leaves every table bitwise
identical. -/
theorem append_bundle_idempotent :
    (∀ (s : Storage) (b : Bundle) (ops : List Operation),
      (lookupA s.bundles b.bundleId).isSome = true →
      appendBundle s b ops = .ok s) ∧
    (∀ (s : Storage) (b : Bundle) (ops : List Operation) (s2 : Storage),
      appendBundle s b ops = .ok s2 →
      appendBundle s2 b ops = .ok s2) := by
  have hfirst : ∀ (s : Storage) (b : Bundle) (ops : List Operation),
      (lookupA s.bundles b.bundleId).isSome = true →
      appendBundle s b ops = .ok s := by
    intro s b ops hsome
    unfold appendBundle
    cases hl : lookupA s.bundles b.bundleId with
    | none => rw [hl] at hsome; cases hsome
    | some b0 => rfl
  refine ⟨hfirst, ?_⟩
  intro s b ops s2 h
  exact hfirst s2 b ops (appendBundle_bundle_present s b ops s2 h)

/-- Concrete single-op bundle for the C3 witness. -/
def c3Op : Operation :=
  ⟨20, 2, ⟨500, 0⟩, 21, .createEntity 7 none, true⟩

/-- Concrete bundle record for the C3 witness. -/
def c3Bundle : Bundle :=
  ⟨21, 2, ⟨500, 0⟩, .userEdit, some [], true⟩

/-- Storage after appending the C3 witness bundle once. -/
def c3State : Storage :=
  match appendBundle Storage.empty c3Bundle [c3Op] with
  | .ok s => s
  | .error _ => Storage.empty

/-- Witness: a second append of an already-appended concrete bundle returns
success with the state unchanged. -/
theorem append_bundle_idempotent_witness :
    appendBundle c3State c3Bundle [c3Op] = .ok c3State := by
  exact append_bundle_idempotent.2 Storage.empty c3Bundle [c3Op] c3State (by rfl)

/-! ### Conflict store and ingest pipeline (claims C2, C4, C8, C10) -/

/-- `get_field_source_bundle_vc`: actor, HLC and op of the row that last
wrote the field, joined with the creator VC of the bundle that op belongs
to.  The SQL JOIN returns no row when the oplog or bundle row is missing. -/
def getFieldSourceBundleVc (s : Storage) (e : EntityId) (k : String) :
    Option (ActorId × Hlc × OpId × Option VectorClock) :=
  match lookupA s.fields (e, k) with
  | none => none
  | some r =>
    match s.oplog.find? (fun o => o.opId == r.sourceOp) with
    | none => none
    | some o =>
      match lookupA s.bundles o.bundleId with
      | none => none
      | some b => some (r.sourceActor, r.updatedAt, r.sourceOp, b.creatorVc)

/-- `get_op_field_value`: the value carried by an oplog operation
(`SetField` / `ResolveConflict` with a value); `none` for tombstone writers
or a missing row. -/
def getOpFieldValue (s : Storage) (opId : OpId) : Option Val :=
  match s.oplog.find? (fun o => o.opId == opId) with
  | none => none
  | some o =>
    match o.payload with
    | .setField _ _ v => some v
    | .resolveConflict _ _ _ (some v) => some v
    | _ => none

/-- `get_latest_conflict_for_field`
(`ORDER BY detected_at DESC LIMIT 1`). -/
def getLatestConflictForField (s : Storage) (e : EntityId) (k : String) :
    Option (ConflictId × ConflictRow) :=
  (s.conflicts.filter (fun p => p.2.entityId == e && p.2.fieldKey == k)).foldl
    (fun acc p =>
      match acc with
      | none => some p
      | some q => if Hlc.ltb q.2.detectedAt p.2.detectedAt then some p else some q)
    none

/-- `insert_conflict`: insert the conflict row and one `conflict_values` row
per branch tip; `conflict_values` has primary key `(conflict_id, actor_id)`,
so duplicate tip actors are a constraint violation. -/
def insertConflict (s : Storage) (cid : ConflictId) (c : ConflictRow) :
    Except StorageError Storage :=
  match lookupA s.conflicts cid with
  | some _ => Except.error (.constraintViolation "conflicts")
  | none =>
    if (c.values.map (·.actorId)).Nodup then
      Except.ok { s with conflicts := s.conflicts ++ [(cid, c)] }
    else Except.error (.constraintViolation "conflict_values")

/-- `reopen_conflict`: set status back to open, record reopen markers,
delete every branch tip and insert the given ones. -/
def reopenConflict (s : Storage) (cid : ConflictId) (reopenedAt : Hlc)
    (reopenedByOp : OpId) (newValues : List ConflictValue) :
    Except StorageError Storage :=
  if (newValues.map (·.actorId)).Nodup then
    Except.ok { s with conflicts := updateA s.conflicts cid (fun c =>
      { c with status := .isOpen, reopenedAt := some reopenedAt,
               reopenedByOp := some reopenedByOp, values := newValues }) }
  else Except.error (.constraintViolation "conflict_values")

/-- `add_conflict_value`: upsert one branch tip keyed by `actor_id`. -/
def addConflictValue (s : Storage) (cid : ConflictId) (v : ConflictValue) :
    Storage :=
  { s with conflicts := updateA s.conflicts cid (fun c =>
    { c with values :=
      if c.values.any (fun w => w.actorId == v.actorId) then
        c.values.map (fun w => if w.actorId == v.actorId then v else w)
      else c.values ++ [v] }) }

/-- `update_conflict_resolved`. -/
def updateConflictResolved (s : Storage) (cid : ConflictId) (resolvedAt : Hlc)
    (resolvedBy : ActorId) (resolvedOp : OpId) (resolvedValue : Option Val) :
    Storage :=
  { s with conflicts := updateA s.conflicts cid (fun c =>
    { c with status := .resolved, resolvedAt := some resolvedAt,
             resolvedBy := some resolvedBy, resolvedOpId := some resolvedOp,
             resolvedValue := resolvedValue }) }

/-- `engine::FieldMetadataSnapshot`: pre-materialization snapshot of one
field a Set/ClearField op is about to write. -/
structure FieldMetadataSnapshot where
  entityId : EntityId
  fieldKey : String
  currentActor : Option ActorId
  currentHlc : Option Hlc
  currentOpId : Option OpId
  currentBundleVc : Option VectorClock
  ingestedOpId : OpId
  ingestedValue : Option Val
deriving DecidableEq, Repr

/-- `Engine::snapshot_field_metadata`. -/
def snapshotFieldMetadata (s : Storage) (operations : List Operation) :
    List FieldMetadataSnapshot :=
  operations.foldl (fun snaps op =>
    match op.payload with
    | .setField e k v =>
      let current := getFieldSourceBundleVc s e k
      snaps ++ [⟨e, k, current.map (·.1), current.map (·.2.1),
        current.map (·.2.2.1), current.bind (·.2.2.2), op.opId, some v⟩]
    | .clearField e k =>
      let current := getFieldSourceBundleVc s e k
      snaps ++ [⟨e, k, current.map (·.1), current.map (·.2.1),
        current.map (·.2.2.1), current.bind (·.2.2.2), op.opId, none⟩]
    | _ => snaps) []

/-- Step-3 check of `Engine::detect_conflicts`: the ingesting bundle's
creator VC already covers the current writer
(`creator_vc.get(current_actor) >= current_hlc`). -/
def ingestSawCurrent (creatorVc : Option VectorClock) (currentActor : ActorId)
    (currentHlc : Hlc) : Bool :=
  match creatorVc with
  | none => false
  | some vc =>
    match vcGet vc currentActor with
    | none => false
    | some known => Hlc.leb currentHlc known

/-- Step-4 check of `Engine::detect_conflicts`: the current row's
source-bundle VC covers the ingested op
(`current_bundle_vc.get(ingested_actor) >= ingested_hlc`). -/
def currentSawIngested (currentBundleVc : Option VectorClock)
    (ingestedActor : ActorId) (ingestedHlc : Hlc) : Bool :=
  match currentBundleVc with
  | none => false
  | some vc =>
    match vcGet vc ingestedActor with
    | none => false
    | some known => Hlc.leb ingestedHlc known

/-- One iteration of the loop in `Engine::detect_conflicts` for a single
pre-materialization snapshot.  `freshCid` models `ConflictId::new()` for the
new-conflict path.  Returns the updated storage and the conflict record
pushed for this snapshot (`none` when no conflict). -/
def detectConflictStep (s : Storage) (bundle : Bundle)
    (operations : List Operation) (freshCid : ConflictId)
    (snap : FieldMetadataSnapshot) :
    Except StorageError (Storage × Option (ConflictId × ConflictRow)) :=
  match snap.currentActor with
  | none => Except.ok (s, none)
  | some currentActor =>
    let currentHlc := snap.currentHlc.getD ⟨0, 0⟩
    let currentOpId := snap.currentOpId.getD 0
    if currentActor == bundle.actorId then Except.ok (s, none)
    else
      match operations.find? (fun o => o.opId == snap.ingestedOpId) with
      | none => Except.ok (s, none)
      | some ingestedOp =>
        if ingestSawCurrent bundle.creatorVc currentActor currentHlc then
          Except.ok (s, none)
        else if currentSawIngested snap.currentBundleVc bundle.actorId
            ingestedOp.hlc then
          Except.ok (s, none)
        else
          let currentValueBytes := getOpFieldValue s currentOpId
          let incomingTip : ConflictValue :=
            ⟨snap.ingestedValue, bundle.actorId, ingestedOp.hlc, snap.ingestedOpId⟩
          match getLatestConflictForField s snap.entityId snap.fieldKey with
          | some (cid, existing) =>
            if existing.status = ConflictStatus.resolved then
              let resolutionTip : ConflictValue :=
                ⟨existing.resolvedValue, existing.resolvedBy.getD 0,
                 existing.resolvedAt.getD ⟨0, 0⟩, existing.resolvedOpId.getD 0⟩
              match reopenConflict s cid ingestedOp.hlc snap.ingestedOpId
                [resolutionTip, incomingTip] with
              | .error err => Except.error err
              | .ok s2 =>
                match lookupA s2.conflicts cid with
                | none => Except.error (.notFound "conflict")
                | some c => Except.ok (s2, some (cid, c))
            else
              let s2 := addConflictValue s cid incomingTip
              match lookupA s2.conflicts cid with
              | none => Except.error (.notFound "conflict")
              | some c => Except.ok (s2, some (cid, c))
          | none =>
            let newRec : ConflictRow :=
              ⟨snap.entityId, snap.fieldKey, .isOpen,
               [⟨currentValueBytes, currentActor, currentHlc, currentOpId⟩,
                incomingTip],
               ingestedOp.hlc, bundle.bundleId, none, none, none, none, none, none⟩
            match insertConflict s freshCid newRec with
            | .error err => Except.error err
            | .ok s2 => Except.ok (s2, some (freshCid, newRec))

/-- Accumulator step for folding `detectConflictStep` over all snapshots;
threads the storage, the pushed conflicts and the fresh conflict-id
supply. -/
def detectConflictsAux (bundle : Bundle) (operations : List Operation)
    (acc : Storage × List (ConflictId × ConflictRow) × ConflictId)
    (snap : FieldMetadataSnapshot) :
    Except StorageError (Storage × List (ConflictId × ConflictRow) × ConflictId) :=
  match detectConflictStep acc.1 bundle operations acc.2.2 snap with
  | .error err => .error err
  | .ok (s2, none) => .ok (s2, acc.2.1, acc.2.2 + 1)
  | .ok (s2, some c) => .ok (s2, acc.2.1 ++ [c], acc.2.2 + 1)

/-- `Engine::detect_conflicts`. -/
def detectConflicts (s : Storage) (bundle : Bundle)
    (operations : List Operation) (snaps : List FieldMetadataSnapshot)
    (firstCid : ConflictId) :
    Except StorageError (Storage × List (ConflictId × ConflictRow) × ConflictId) :=
  snaps.foldlM (detectConflictsAux bundle operations) (s, [], firstCid)

/-- `mark_overlay_ops_drifted`: set `canonical_drifted = 1` on every overlay
op row matching `(entity_id, field_key)`, across all overlays. -/
def markOverlayOpsDrifted (s : Storage) (e : EntityId) (k : String) : Storage :=
  { s with overlayOps := s.overlayOps.map (fun r =>
    if r.entityId == some e && r.fieldKey == some k then
      { r with canonicalDrifted := true }
    else r) }

/-- `Engine::scan_overlay_drift`. -/
def scanOverlayDrift (s : Storage) (modifiedFields : List (EntityId × String)) :
    Storage :=
  modifiedFields.foldl (fun s ek => markOverlayOpsDrifted s ek.1 ek.2) s

/-- The `(entity_id, field_key)` pairs written by SetField/ClearField ops of
a bundle (used by the drift scan). -/
def modifiedFieldsOf (operations : List Operation) : List (EntityId × String) :=
  operations.filterMap (fun op =>
    match op.payload with
    | .setField e k _ => some (e, k)
    | .clearField e k => some (e, k)
    | _ => none)

/-- `Engine::ingest_bundle`: snapshot pre-materialization field metadata,
append the bundle, detect conflicts, scan overlay drift and return the
detected conflicts.  This path performs NO signature verification
(`engine/src/lib.rs:739-781` contains no `verify_signature` call); the
`sigValid` flags of the bundle and operations are never consulted.
`firstCid` models the `ConflictId::new()` supply. -/
def ingestBundle (s : Storage) (bundle : Bundle) (operations : List Operation)
    (firstCid : ConflictId) :
    Except StorageError (Storage × List (ConflictId × ConflictRow)) :=
  let snaps := snapshotFieldMetadata s operations
  match appendBundle s bundle operations with
  | .error err => .error err
  | .ok s1 =>
    match detectConflicts s1 bundle operations snaps firstCid with
    | .error err => .error err
    | .ok (s2, confs, _) =>
      .ok (scanOverlayDrift s2 (modifiedFieldsOf operations), confs)

/-- Setup op for the C2 theorem: a validly signed entity creation. -/
def c2SetupOp : Operation :=
  ⟨28, 3, ⟨600, 0⟩, 29, .createEntity 9 none, true⟩

/-- Setup bundle for the C2 theorem. -/
def c2SetupBundle : Bundle :=
  ⟨29, 3, ⟨600, 0⟩, .userEdit, some [], true⟩

/-- State holding entity 9, before the invalid-signature ingest. -/
def c2State : Storage :=
  match appendBundle Storage.empty c2SetupBundle [c2SetupOp] with
  | .ok s => s
  | .error _ => Storage.empty

/-- An operation whose signature does not verify (`sigValid = false`). -/
def c2BadOp : Operation :=
  ⟨30, 4, ⟨700, 0⟩, 31, .setField 9 "f" 1, false⟩

/-- A bundle whose signature does not verify (`sigValid = false`). -/
def c2BadBundle : Bundle :=
  ⟨31, 4, ⟨700, 0⟩, .userEdit, some [], false⟩

/-- Claim C2 (code bug): `ingest_bundle` never verifies the bundle or
operation signatures.  Ingesting a concrete bundle whose signature is
invalid succeeds, appends the operation to the oplog and materializes its
field write, instead of aborting with an error and leaving storage
unchanged as the spec requires. -/
theorem ingest_accepts_invalid_signature :
    c2BadBundle.sigValid = false ∧ c2BadOp.sigValid = false ∧
    ∃ s2 confs,
      ingestBundle c2State c2BadBundle [c2BadOp] 100 = .ok (s2, confs) ∧
      opCount s2 = 2 ∧ getField s2 9 "f" = some 1 ∧
      opCount c2State = 1 ∧ getField c2State 9 "f" = none := by
  exact ⟨rfl, rfl, _, _, rfl, rfl, rfl, rfl, rfl⟩

/-- Claim C10: when the ingested bundle carries no creator vector clock
(`creator_vc = None`), step 3 ("the ingesting writer saw the current
value") never fires, so an ingested Set/ClearField on a field last written
by a different actor is recorded as a conflict unless the current row's
source-bundle VC covers the ingested op's `(actor, hlc)`. -/
theorem no_creator_vc_always_conflicts (s : Storage) (bundle : Bundle)
    (operations : List Operation) (freshCid : ConflictId)
    (snap : FieldMetadataSnapshot) (a : ActorId) (iop : Operation)
    (hvc : bundle.creatorVc = none)
    (hcur : snap.currentActor = some a)
    (hne : a ≠ bundle.actorId)
    (hfind : operations.find? (fun o => o.opId == snap.ingestedOpId) = some iop)
    (hnotcov : currentSawIngested snap.currentBundleVc bundle.actorId iop.hlc
      = false)
    (s2 : Storage) (res : Option (ConflictId × ConflictRow))
    (hstep : detectConflictStep s bundle operations freshCid snap
      = .ok (s2, res)) :
    res.isSome = true := by
  have hbeq : (a == bundle.actorId) = false := by simpa using hne
  unfold detectConflictStep at hstep
  rw [hcur, hfind, hvc] at hstep
  simp only [hbeq, Bool.false_eq_true, if_false, ingestSawCurrent, hnotcov]
    at hstep
  split at hstep
  next cid existing heq =>
    split at hstep
    · split at hstep
      · cases hstep
      · split at hstep
        · cases hstep
        · simp only [Except.ok.injEq, Prod.mk.injEq] at hstep
          rw [← hstep.2]
          rfl
    · split at hstep
      · cases hstep
      · simp only [Except.ok.injEq, Prod.mk.injEq] at hstep
        rw [← hstep.2]
        rfl
  next heq =>
    split at hstep
    · cases hstep
    · simp only [Except.ok.injEq, Prod.mk.injEq] at hstep
      rw [← hstep.2]
      rfl

/-- Concrete snapshot for the C10 witness: current writer is actor 1, whose
source bundle carried an empty VC. -/
def c10Snap : FieldMetadataSnapshot :=
  ⟨9, "f", some 1, some ⟨200, 0⟩, some 40, some [], 60, some 7⟩

/-- Concrete ingested bundle for the C10 witness, with no creator VC. -/
def c10Bundle : Bundle :=
  ⟨61, 3, ⟨400, 0⟩, .userEdit, none, true⟩

/-- Concrete ingested op for the C10 witness. -/
def c10Op : Operation :=
  ⟨60, 3, ⟨400, 0⟩, 61, .setField 9 "f" 7, true⟩

/-- Result of the concrete C10 detection step. -/
def c10Result : Storage × Option (ConflictId × ConflictRow) :=
  match detectConflictStep Storage.empty c10Bundle [c10Op] 80 c10Snap with
  | .ok r => r
  | .error _ => (Storage.empty, none)

/-- Witness: the C10 theorem applied at a concrete no-creator-VC ingest
records a conflict. -/
theorem no_creator_vc_always_conflicts_witness :
    (c10Result.2).isSome = true := by
  exact no_creator_vc_always_conflicts Storage.empty c10Bundle [c10Op] 80
    c10Snap 1 c10Op rfl rfl (by decide) (by rfl) (by rfl)
    c10Result.1 c10Result.2 (by rfl)

/-- Claim C4: an ingested concurrent Set/ClearField on a field whose latest
conflict record is resolved reopens that conflict: status is set to open,
`reopened_at`/`reopened_by_op` come from the ingested op, and the branch
tips are replaced with exactly two — the recorded resolution tip and the
ingested tip — with all earlier tips removed. -/
theorem reopen_replaces_tips (s : Storage) (bundle : Bundle)
    (operations : List Operation) (freshCid : ConflictId)
    (snap : FieldMetadataSnapshot) (a : ActorId) (iop : Operation)
    (cid : ConflictId) (c : ConflictRow) (ra : Hlc) (rb : ActorId) (ro : OpId)
    (hcur : snap.currentActor = some a)
    (hne : a ≠ bundle.actorId)
    (hfind : operations.find? (fun o => o.opId == snap.ingestedOpId) = some iop)
    (hsaw3 : ingestSawCurrent bundle.creatorVc a (snap.currentHlc.getD ⟨0, 0⟩)
      = false)
    (hsaw4 : currentSawIngested snap.currentBundleVc bundle.actorId iop.hlc
      = false)
    (hlatest : getLatestConflictForField s snap.entityId snap.fieldKey
      = some (cid, c))
    (hres : c.status = ConflictStatus.resolved)
    (hra : c.resolvedAt = some ra) (hrb : c.resolvedBy = some rb)
    (hro : c.resolvedOpId = some ro)
    (hrbne : rb ≠ bundle.actorId)
    (hlook : lookupA s.conflicts cid = some c) :
    ∃ s2 c2,
      detectConflictStep s bundle operations freshCid snap
        = .ok (s2, some (cid, c2)) ∧
      lookupA s2.conflicts cid = some c2 ∧
      c2.status = .isOpen ∧
      c2.reopenedAt = some iop.hlc ∧
      c2.reopenedByOp = some snap.ingestedOpId ∧
      c2.values = [⟨c.resolvedValue, rb, ra, ro⟩,
                   ⟨snap.ingestedValue, bundle.actorId, iop.hlc,
                    snap.ingestedOpId⟩] := by
  have hbeq : (a == bundle.actorId) = false := by simpa using hne
  have hnodup : (([⟨c.resolvedValue, rb, ra, ro⟩,
      ⟨snap.ingestedValue, bundle.actorId, iop.hlc, snap.ingestedOpId⟩]
        : List ConflictValue).map (·.actorId)).Nodup := by
    simp [hrbne]
  unfold detectConflictStep
  rw [hcur, hfind]
  simp only [hbeq, Bool.false_eq_true, if_false, hsaw3, hsaw4, hlatest, hres,
    if_true]
  rw [hra, hrb, hro]
  unfold reopenConflict
  simp only [Option.getD_some]
  rw [if_pos hnodup]
  simp only [lookupA_updateA, hlook]
  refine ⟨_, _, rfl, ?_, rfl, rfl, rfl, rfl⟩
  simp [lookupA_updateA, hlook]

/-- Concrete resolved conflict row for the C4 witness. -/
def c4Conflict : ConflictRow :=
  ⟨9, "f", .resolved, [], ⟨100, 0⟩, 41, some ⟨300, 0⟩, some 2, some 56, some 5,
   none, none⟩

/-- Concrete state for the C4 witness: one resolved conflict on `(9, "f")`. -/
def c4State : Storage :=
  { Storage.empty with conflicts := [(50, c4Conflict)] }

/-- Concrete pre-materialization snapshot for the C4 witness. -/
def c4Snap : FieldMetadataSnapshot :=
  ⟨9, "f", some 1, some ⟨200, 0⟩, some 40, some [], 60, some 7⟩

/-- Concrete ingested bundle for the C4 witness. -/
def c4Bundle : Bundle := ⟨61, 3, ⟨400, 0⟩, .userEdit, some [], true⟩

/-- Concrete ingested op for the C4 witness. -/
def c4Op : Operation := ⟨60, 3, ⟨400, 0⟩, 61, .setField 9 "f" 7, true⟩

/-- Witness: the C4 theorem applied at a concrete resolved conflict hit by
a concurrent foreign write. -/
theorem reopen_replaces_tips_witness :
    ∃ s2 c2,
      detectConflictStep c4State c4Bundle [c4Op] 80 c4Snap
        = .ok (s2, some (50, c2)) ∧
      lookupA s2.conflicts 50 = some c2 ∧
      c2.status = .isOpen ∧
      c2.reopenedAt = some (⟨400, 0⟩ : Hlc) ∧
      c2.reopenedByOp = some 60 ∧
      c2.values = [⟨some 5, 2, ⟨300, 0⟩, 56⟩, ⟨some 7, 3, ⟨400, 0⟩, 60⟩] := by
  exact reopen_replaces_tips c4State c4Bundle [c4Op] 80 c4Snap 1 c4Op 50
    c4Conflict ⟨300, 0⟩ 2 56 rfl (by decide) (by rfl) (by rfl) (by rfl)
    (by rfl) rfl rfl rfl rfl (by decide) (by rfl)

/-! ### Overlay drift via ingest (claim C8) -/

/-- One append-loop step preserves the conflicts table and both overlay
tables. -/
theorem appendOpStep_frame (b : Bundle) (s : Storage) (op : Operation)
    (s2 : Storage) (h : appendOpStep b s op = .ok s2) :
    s2.conflicts = s.conflicts ∧ s2.overlays = s.overlays ∧
    s2.overlayOps = s.overlayOps := by
  unfold appendOpStep at h
  split at h
  · cases h
  · split at h
    · cases h
    next sm hmat =>
      have hfr := materializeOp_frame _ _ _ _ hmat
      injection h with h
      subst h
      exact ⟨by simpa using hfr.2.2.2.2.1, by simpa using hfr.2.2.2.2.2.1,
        by simpa using hfr.2.2.2.2.2.2⟩

/-- The whole append loop preserves conflicts and overlay tables. -/
theorem appendLoop_frame (b : Bundle) :
    ∀ (ops : List Operation) (s s2 : Storage),
    ops.foldlM (appendOpStep b) s = .ok s2 →
    s2.conflicts = s.conflicts ∧ s2.overlays = s.overlays ∧
    s2.overlayOps = s.overlayOps := by
  intro ops
  induction ops with
  | nil =>
    intro s s2 h
    injection h with h
    subst h
    exact ⟨rfl, rfl, rfl⟩
  | cons op t ih =>
    intro s s2 h
    rw [List.foldlM_cons] at h
    obtain ⟨s1, hstep, h⟩ := exceptBind_eq_ok h
    obtain ⟨h1, h2, h3⟩ := ih s1 s2 h
    obtain ⟨g1, g2, g3⟩ := appendOpStep_frame b s op s1 hstep
    exact ⟨h1.trans g1, h2.trans g2, h3.trans g3⟩

/-- `append_bundle` preserves conflicts and overlay tables. -/
theorem appendBundle_frame (s : Storage) (b : Bundle) (ops : List Operation)
    (s2 : Storage) (h : appendBundle s b ops = .ok s2) :
    s2.conflicts = s.conflicts ∧ s2.overlays = s.overlays ∧
    s2.overlayOps = s.overlayOps := by
  unfold appendBundle at h
  split at h
  · injection h with h
    subst h
    exact ⟨rfl, rfl, rfl⟩
  · obtain ⟨h1, h2, h3⟩ := appendLoop_frame b ops _ s2 h
    exact ⟨h1, h2, h3⟩

theorem reopenConflict_frame (s : Storage) (cid : ConflictId) (r : Hlc)
    (o : OpId) (vs : List ConflictValue) (s2 : Storage)
    (h : reopenConflict s cid r o vs = .ok s2) :
    s2.overlays = s.overlays ∧ s2.overlayOps = s.overlayOps := by
  unfold reopenConflict at h
  split at h
  · injection h with h
    subst h
    exact ⟨rfl, rfl⟩
  · cases h

theorem insertConflict_frame (s : Storage) (cid : ConflictId)
    (c : ConflictRow) (s2 : Storage) (h : insertConflict s cid c = .ok s2) :
    s2.overlays = s.overlays ∧ s2.overlayOps = s.overlayOps := by
  unfold insertConflict at h
  split at h
  · cases h
  · split at h
    · injection h with h
      subst h
      exact ⟨rfl, rfl⟩
    · cases h

/-- A conflict-detection step only writes the conflicts table. -/
theorem detectConflictStep_frame (s : Storage) (bundle : Bundle)
    (operations : List Operation) (freshCid : ConflictId)
    (snap : FieldMetadataSnapshot) (s2 : Storage)
    (res : Option (ConflictId × ConflictRow))
    (h : detectConflictStep s bundle operations freshCid snap = .ok (s2, res)) :
    s2.overlays = s.overlays ∧ s2.overlayOps = s.overlayOps := by
  unfold detectConflictStep at h
  repeat'
    first
      | (split at h)
      | (simp only [] at h; split at h)
  all_goals
    cases h <;>
      first
        | exact ⟨rfl, rfl⟩
        | exact reopenConflict_frame _ _ _ _ _ _ (by assumption)
        | exact insertConflict_frame _ _ _ _ (by assumption)

/-- The conflict-detection fold only writes the conflicts table. -/
theorem detectConflicts_frame (bundle : Bundle) (operations : List Operation) :
    ∀ (snaps : List FieldMetadataSnapshot)
      (acc out : Storage × List (ConflictId × ConflictRow) × ConflictId),
    snaps.foldlM (detectConflictsAux bundle operations) acc = .ok out →
    out.1.overlays = acc.1.overlays ∧ out.1.overlayOps = acc.1.overlayOps := by
  intro snaps
  induction snaps with
  | nil =>
    intro acc out h
    injection h with h
    subst h
    exact ⟨rfl, rfl⟩
  | cons snap t ih =>
    intro acc out h
    rw [List.foldlM_cons] at h
    obtain ⟨acc1, hstep, h⟩ := exceptBind_eq_ok h
    obtain ⟨h1, h2⟩ := ih acc1 out h
    unfold detectConflictsAux at hstep
    split at hstep
    · cases hstep
    next s2 heq =>
      injection hstep with hstep
      subst hstep
      obtain ⟨g1, g2⟩ := detectConflictStep_frame _ _ _ _ _ _ _ heq
      exact ⟨h1.trans g1, h2.trans g2⟩
    next s2 c heq =>
      injection hstep with hstep
      subst hstep
      obtain ⟨g1, g2⟩ := detectConflictStep_frame _ _ _ _ _ _ _ heq
      exact ⟨h1.trans g1, h2.trans g2⟩

/-- `scan_overlay_drift` transforms each overlay-op row independently:
every row of the result comes from a row of the input, either unchanged or
drift-marked because some modified field matches it. -/
theorem scanOverlayDrift_mem (mf : List (EntityId × String)) :
    ∀ (s : Storage) (r2 : OverlayOpRow),
    r2 ∈ (scanOverlayDrift s mf).overlayOps →
    ∃ r1 ∈ s.overlayOps,
      (r2 = r1 ∨ r2 = { r1 with canonicalDrifted := true }) ∧
      (r2 = r1 ∨ ∃ ek ∈ mf, r1.entityId = some ek.1 ∧ r1.fieldKey = some ek.2) := by
  induction mf with
  | nil =>
    intro s r2 h
    exact ⟨r2, h, Or.inl rfl, Or.inl rfl⟩
  | cons ek t ih =>
    intro s r2 h
    obtain ⟨r1, hmem, hrel, hwr⟩ := ih (markOverlayOpsDrifted s ek.1 ek.2) r2 h
    unfold markOverlayOpsDrifted at hmem
    simp only [List.mem_map] at hmem
    obtain ⟨r0, hr0, hr1⟩ := hmem
    by_cases hc : (r0.entityId == some ek.1 && r0.fieldKey == some ek.2) = true
    · rw [if_pos hc] at hr1
      subst hr1
      simp only [Bool.and_eq_true, beq_iff_eq] at hc
      refine ⟨r0, hr0, ?_, ?_⟩
      · rcases hrel with rfl | rfl
        · exact Or.inr rfl
        · exact Or.inr rfl
      · exact Or.inr ⟨ek, by simp, hc.1, hc.2⟩
    · rw [if_neg hc] at hr1
      subst hr1
      refine ⟨r0, hr0, hrel, ?_⟩
      rcases hwr with h1 | ⟨ek2, hm, he, hk⟩
      · exact Or.inl h1
      · exact Or.inr ⟨ek2, by simp [hm], he, hk⟩

/-- Amended C8: after a successful ingest, every overlay-op row either is an
unchanged row of the pre-state, or is a pre-state row that got drift-marked
because the ingested bundle carried a SetField/ClearField on that very
`(entity_id, field_key)` — whether or not the LWW guard actually changed the
materialized row. -/
theorem drift_implies_bundle_write (s : Storage) (bundle : Bundle)
    (operations : List Operation) (firstCid : ConflictId) (s2 : Storage)
    (confs : List (ConflictId × ConflictRow))
    (h : ingestBundle s bundle operations firstCid = .ok (s2, confs))
    (r2 : OverlayOpRow) (hmem : r2 ∈ s2.overlayOps) :
    ∃ r1 ∈ s.overlayOps,
      (r2 = r1 ∨ r2 = { r1 with canonicalDrifted := true }) ∧
      (r2 = r1 ∨ ∃ ek ∈ modifiedFieldsOf operations,
        r1.entityId = some ek.1 ∧ r1.fieldKey = some ek.2) := by
  unfold ingestBundle at h
  split at h
  · cases h
  next s1 happ =>
    simp only [] at h
    split at h
    · cases h
    next sd confs2 next2 hdet =>
      injection h with h
      have hpair := (Prod.mk.injEq _ _ _ _).mp h
      have hs2 : s2 = scanOverlayDrift sd (modifiedFieldsOf operations) :=
        hpair.1.symm
      subst hs2
      obtain ⟨r1, hr1, hrel, hwr⟩ :=
        scanOverlayDrift_mem (modifiedFieldsOf operations) sd r2 hmem
      have hovl : sd.overlayOps = s.overlayOps := by
        have h1 := (detectConflicts_frame bundle operations _ _ _ hdet).2
        have h2 := (appendBundle_frame s bundle operations s1 happ).2.2
        exact h1.trans h2
      rw [hovl] at hr1
      exact ⟨r1, hr1, hrel, hwr⟩

/-- Op creating entity 9 for the C8 scenario. -/
def c8EntityOp : Operation := ⟨38, 1, ⟨1900, 0⟩, 39, .createEntity 9 none, true⟩

/-- Bundle creating entity 9 for the C8 scenario. -/
def c8EntityBundle : Bundle := ⟨39, 1, ⟨1900, 0⟩, .userEdit, some [], true⟩

/-- Local write of `(9, "f")` at HLC (2000,0) for the C8 scenario. -/
def c8WriteOp : Operation := ⟨40, 1, ⟨2000, 0⟩, 41, .setField 9 "f" 5, true⟩

/-- Bundle of the local `(9, "f")` write for the C8 scenario. -/
def c8WriteBundle : Bundle :=
  ⟨41, 1, ⟨2000, 0⟩, .userEdit, some [(1, ⟨1900, 0⟩)], true⟩

/-- Canonical state of the C8 scenario before attaching the overlay. -/
def c8Base : Storage :=
  match appendBundle Storage.empty c8EntityBundle [c8EntityOp] with
  | .ok s =>
    match appendBundle s c8WriteBundle [c8WriteOp] with
    | .ok s2 => s2
    | .error _ => s
  | .error _ => Storage.empty

/-- Overlay op over `(9, "f")` capturing canonical value 5, not drifted. -/
def c8OverlayOp : OverlayOpRow :=
  ⟨1, 70, 71, ⟨2100, 0⟩, .setField 9 "f" 6, some 9, some "f", "SetField",
   some 5, false⟩

/-- C8 scenario state: canonical base plus one overlay holding one op. -/
def c8State : Storage :=
  { c8Base with
    overlays := [(70, ⟨"draft", "user", "active", ⟨2100, 0⟩, ⟨2100, 0⟩⟩)],
    overlayOps := [c8OverlayOp] }

/-- Stale foreign write of `(9, "f")` at HLC (1000,0): loses LWW. -/
def c8StaleOp : Operation := ⟨42, 2, ⟨1000, 0⟩, 43, .setField 9 "f" 7, true⟩

/-- Bundle of the stale foreign write. -/
def c8StaleBundle : Bundle := ⟨43, 2, ⟨1000, 0⟩, .userEdit, some [], true⟩

/-- C8 counterexample: ingesting a stale foreign SetField that loses the
LWW race — so the materialized `fields` row is bitwise unchanged — still
marks the overlay op on that field `canonical_drifted = 1`.  The flag does
NOT imply the underlying canonical field was actually mutated. -/
theorem drift_marked_without_canonical_mutation :
    ∃ s2 confs,
      ingestBundle c8State c8StaleBundle [c8StaleOp] 90 = .ok (s2, confs) ∧
      lookupA s2.fields (9, "f") = lookupA c8State.fields (9, "f") ∧
      getField s2 9 "f" = some 5 ∧
      s2.overlayOps.all (fun r => r.canonicalDrifted) = true ∧
      c8State.overlayOps.all (fun r => !r.canonicalDrifted) = true := by
  exact ⟨_, _, rfl, rfl, rfl, rfl, rfl⟩

/-- Result of the concrete C8 ingest. -/
def c8Result : Storage × List (ConflictId × ConflictRow) :=
  match ingestBundle c8State c8StaleBundle [c8StaleOp] 90 with
  | .ok r => r
  | .error _ => (Storage.empty, [])

/-- Witness for the amended C8 theorem at the concrete C8 ingest. -/
theorem drift_implies_bundle_write_witness :
    ∃ r1 ∈ c8State.overlayOps,
      (({ c8OverlayOp with canonicalDrifted := true } : OverlayOpRow) = r1 ∨
        ({ c8OverlayOp with canonicalDrifted := true } : OverlayOpRow) =
          { r1 with canonicalDrifted := true }) ∧
      (({ c8OverlayOp with canonicalDrifted := true } : OverlayOpRow) = r1 ∨
        ∃ ek ∈ modifiedFieldsOf [c8StaleOp],
          r1.entityId = some ek.1 ∧ r1.fieldKey = some ek.2) := by
  exact drift_implies_bundle_write c8State c8StaleBundle [c8StaleOp] 90
    c8Result.1 c8Result.2 (by rfl)
    { c8OverlayOp with canonicalDrifted := true } (by decide)

/-! ### Engine: snapshots, undo/redo, resolution, overlays
(claims C5, C6, C7, C9) -/

/-- `FacetRecord` as returned by `get_facets`. -/
structure FacetRecord where
  entityId : EntityId
  facetType : String
  attachedAt : Hlc
  attachedBy : ActorId
  detached : Bool
deriving DecidableEq, Repr

/-- `EdgeRecord` as returned by the edge getters. -/
structure EdgeRecord where
  edgeId : EdgeId
  edgeType : String
  sourceId : EntityId
  targetId : EntityId
  createdAt : Hlc
  createdBy : ActorId
  deleted : Bool
deriving DecidableEq, Repr

/-- `SqliteStorage::get_facets`. -/
def getFacets (s : Storage) (e : EntityId) : List FacetRecord :=
  (s.facets.filter (fun p => p.1.1 == e)).map (fun p =>
    ⟨p.1.1, p.1.2, p.2.attachedAt, p.2.attachedBy, p.2.detachedAt.isSome⟩)

/-- `SqliteStorage::get_edges_from`. -/
def getEdgesFrom (s : Storage) (e : EntityId) : List EdgeRecord :=
  (s.edges.filter (fun p => p.2.sourceId == e)).map (fun p =>
    ⟨p.1, p.2.edgeType, p.2.sourceId, p.2.targetId, p.2.createdAt,
     p.2.createdBy, p.2.deletedAt.isSome⟩)

/-- `SqliteStorage::get_edges_to`. -/
def getEdgesTo (s : Storage) (e : EntityId) : List EdgeRecord :=
  (s.edges.filter (fun p => p.2.targetId == e)).map (fun p =>
    ⟨p.1, p.2.edgeType, p.2.sourceId, p.2.targetId, p.2.createdAt,
     p.2.createdBy, p.2.deletedAt.isSome⟩)

/-- `SqliteStorage::get_edge` as an `EdgeRecord`. -/
def getEdgeRecord (s : Storage) (id : EdgeId) : Option EdgeRecord :=
  (lookupA s.edges id).map (fun r =>
    ⟨id, r.edgeType, r.sourceId, r.targetId, r.createdAt, r.createdBy,
     r.deletedAt.isSome⟩)

/-- `SqliteStorage::get_edge_property_metadata`. -/
def getEdgePropertyMetadata (s : Storage) (id : EdgeId) (k : String) :
    Option (ActorId × Hlc) :=
  (lookupA s.edgeProps (id, k)).map (fun r => (r.sourceActor, r.updatedAt))

/-- `undo.rs::FieldSnapshot`. -/
structure FieldSnapshot where
  entityId : EntityId
  fieldKey : String
  previousValue : Option Val
  previousMetadata : Option (ActorId × Hlc)
deriving DecidableEq, Repr

/-- `undo.rs::EntitySnapshot` (`existed`: `none` = did not exist,
`some true` = existed and was deleted, `some false` = existed and alive). -/
structure EntitySnapshot where
  entityId : EntityId
  existed : Option Bool
  facets : List FacetRecord
  fields : List (String × Val)
deriving DecidableEq, Repr

/-- `undo.rs::EdgeSnapshot`. -/
structure EdgeSnapshot where
  edgeId : EdgeId
  previousState : Option EdgeRecord
deriving DecidableEq, Repr

/-- `undo.rs::FacetSnapshot`. -/
structure FacetSnapshot where
  entityId : EntityId
  facetType : String
  wasAttached : Bool
deriving DecidableEq, Repr

/-- `undo.rs::EdgePropertySnapshot`. -/
structure EdgePropertySnapshot where
  edgeId : EdgeId
  propertyKey : String
  previousValue : Option Val
  previousMetadata : Option (ActorId × Hlc)
deriving DecidableEq, Repr

/-- `undo.rs::PreExecutionSnapshot`. -/
structure PreExecutionSnapshot where
  fieldStates : List FieldSnapshot
  entityStates : List EntitySnapshot
  edgeStates : List EdgeSnapshot
  facetStates : List FacetSnapshot
  edgePropertyStates : List EdgePropertySnapshot
deriving DecidableEq, Repr

/-- `undo.rs::UndoEntry`. -/
structure UndoEntry where
  bundleId : BundleId
  bundleHlc : Hlc
  payloads : List OperationPayload
  snapshot : PreExecutionSnapshot
deriving DecidableEq, Repr

/-- `UndoManager::capture_snapshot`: examine each payload and record the
relevant current state. -/
def captureSnapshot (s : Storage) (payloads : List OperationPayload) :
    PreExecutionSnapshot :=
  payloads.foldl (fun (acc : PreExecutionSnapshot) payload =>
    match payload with
    | .createEntity e initTable =>
      let acc1 := { acc with entityStates := acc.entityStates ++
        [⟨e, (lookupA s.entities e).map EntityRow.deleted, [], []⟩] }
      match initTable with
      | some ft => { acc1 with facetStates := acc1.facetStates ++
          [⟨e, ft, false⟩] }
      | none => acc1
    | .deleteEntity e _ =>
      let liveEdges := ((getEdgesFrom s e) ++ (getEdgesTo s e)).filterMap
        (fun edge => if edge.deleted then none else some (⟨edge.edgeId, some edge⟩ : EdgeSnapshot))
      { acc with
        edgeStates := acc.edgeStates ++ liveEdges,
        entityStates := acc.entityStates ++
          [⟨e, (lookupA s.entities e).map EntityRow.deleted, getFacets s e,
            getFields s e⟩] }
    | .setField e k _ =>
      { acc with fieldStates := acc.fieldStates ++
        [⟨e, k, getField s e k, getFieldMetadata s e k⟩] }
    | .clearField e k =>
      { acc with fieldStates := acc.fieldStates ++
        [⟨e, k, getField s e k, getFieldMetadata s e k⟩] }
    | .createEdge id _ _ _ props =>
      let acc1 : PreExecutionSnapshot := { acc with
        edgeStates := acc.edgeStates ++ [⟨id, getEdgeRecord s id⟩] }
      let propSnaps := props.map (fun kv =>
        (⟨id, kv.1, getEdgeProperty s id kv.1,
          getEdgePropertyMetadata s id kv.1⟩ : EdgePropertySnapshot))
      { acc1 with
        edgePropertyStates := acc1.edgePropertyStates ++ propSnaps }
    | .deleteEdge id =>
      { acc with edgeStates := acc.edgeStates ++ [⟨id, getEdgeRecord s id⟩] }
    | .attachFacet e ft =>
      { acc with facetStates := acc.facetStates ++
        [⟨e, ft, (getFacets s e).any (fun f => f.facetType == ft && !f.detached)⟩] }
    | .detachFacet e ft _ =>
      { acc with facetStates := acc.facetStates ++
        [⟨e, ft, (getFacets s e).any (fun f => f.facetType == ft && !f.detached)⟩] }
    | .restoreEntity e =>
      { acc with entityStates := acc.entityStates ++
        [⟨e, (lookupA s.entities e).map EntityRow.deleted, [], []⟩] }
    | .restoreEdge id =>
      { acc with edgeStates := acc.edgeStates ++ [⟨id, getEdgeRecord s id⟩] }
    | .setEdgeProperty id k _ =>
      { acc with edgePropertyStates := acc.edgePropertyStates ++
        [⟨id, k, getEdgeProperty s id k, getEdgePropertyMetadata s id k⟩] }
    | .clearEdgeProperty id k =>
      { acc with edgePropertyStates := acc.edgePropertyStates ++
        [⟨id, k, getEdgeProperty s id k, getEdgePropertyMetadata s id k⟩] }
    | _ => acc) ⟨[], [], [], [], []⟩

/-- `UndoManager::compute_inverse`. -/
def computeInverse (entry : UndoEntry) : List OperationPayload :=
  entry.payloads.foldl (fun inv payload =>
    match payload with
    | .createEntity e _ => inv ++ [.deleteEntity e []]
    | .deleteEntity e _ =>
      inv ++ [.restoreEntity e] ++
        entry.snapshot.edgeStates.filterMap (fun es =>
          match es.previousState with
          | some edge =>
            if edge.sourceId == e || edge.targetId == e then
              some (.restoreEdge es.edgeId)
            else none
          | none => none)
    | .setField e k _ =>
      match entry.snapshot.fieldStates.find?
        (fun fs => fs.entityId == e && fs.fieldKey == k) with
      | some fs =>
        match fs.previousValue with
        | some prev => inv ++ [.setField e k prev]
        | none => inv ++ [.clearField e k]
      | none => inv
    | .clearField e k =>
      match entry.snapshot.fieldStates.find?
        (fun fs => fs.entityId == e && fs.fieldKey == k) with
      | some fs =>
        match fs.previousValue with
        | some prev => inv ++ [.setField e k prev]
        | none => inv
      | none => inv
    | .createEdge id _ _ _ _ => inv ++ [.deleteEdge id]
    | .deleteEdge id => inv ++ [.restoreEdge id]
    | .attachFacet e ft => inv ++ [.detachFacet e ft true]
    | .detachFacet e ft preserve =>
      if preserve then inv ++ [.restoreFacet e ft]
      else inv ++ [.attachFacet e ft]
    | .restoreEntity e => inv ++ [.deleteEntity e []]
    | .restoreEdge id => inv ++ [.deleteEdge id]
    | .setEdgeProperty id k _ =>
      match entry.snapshot.edgePropertyStates.find?
        (fun ps => ps.edgeId == id && ps.propertyKey == k) with
      | some ps =>
        match ps.previousValue with
        | some prev => inv ++ [.setEdgeProperty id k prev]
        | none => inv ++ [.clearEdgeProperty id k]
      | none => inv
    | .clearEdgeProperty id k =>
      match entry.snapshot.edgePropertyStates.find?
        (fun ps => ps.edgeId == id && ps.propertyKey == k) with
      | some ps =>
        match ps.previousValue with
        | some prev => inv ++ [.setEdgeProperty id k prev]
        | none => inv
      | none => inv
    | _ => inv) []

/-- `engine::EngineError` (restricted to the modelled paths). -/
inductive EngineError where
  | storage (e : StorageError)
  | entityNotFound (e : EntityId)
  | entityAlreadyDeleted (e : EntityId)
  | conflictNotFound
  | conflictAlreadyResolved
  | emptyOverlay (oid : OverlayId)
  | unresolvedDrift (oid : OverlayId)
deriving DecidableEq, Repr

/-- `HlcClock::tick` with `now = physical_now()`: the returned HLC is also
the new clock state. -/
def tick (clock : Hlc) (now : Nat) : Hlc :=
  if now > clock.wall then ⟨now, 0⟩ else ⟨clock.wall, clock.counter + 1⟩

/-- `DEFAULT_UNDO_DEPTH`. -/
def DEFAULT_UNDO_DEPTH : Nat := 100

/-- One replica's engine.  `fresh` models the uuid-v7 id generator: every
generated id is `fresh`-or-larger, and `fresh` advances past every id ever
handed out (ids only need to be unique).  The in-memory overlay undo/redo
stacks of `OverlayManager` are not modelled (no claim touches them). -/
structure Engine where
  selfActor : ActorId
  clock : Hlc
  storage : Storage
  undoStack : List UndoEntry
  redoStack : List UndoEntry
  activeOverlay : Option OverlayId
  fresh : Nat
deriving DecidableEq, Repr

/-- `UndoManager::push_undo`: push-back plus dropping the oldest entry past
the depth limit. -/
def pushUndo (stack : List UndoEntry) (entry : UndoEntry) : List UndoEntry :=
  let st := stack ++ [entry]
  if st.length > DEFAULT_UNDO_DEPTH then st.tail else st

/-- The signed operations `execute_internal` builds: one per payload, all
sharing the bundle's HLC and id; op ids are fresh. -/
def buildOps (selfActor : ActorId) (payloads : List OperationPayload)
    (bundleId : BundleId) (hlc : Hlc) (firstOpId : Nat) : List Operation :=
  payloads.enum.map (fun p =>
    ⟨firstOpId + p.1, selfActor, hlc, bundleId, p.2, true⟩)

/-- Next SQLite rowid for `overlay_ops`. -/
def nextRowid (s : Storage) : Nat :=
  (s.overlayOps.map (·.rowid)).foldl max 0 + 1

/-- `Engine::execute_overlay`: route payloads into `overlay_ops` (no
signing, no bundle); Set/ClearField ops capture the current canonical value
at creation.  Returns a synthetic bundle id. -/
def executeOverlay (eng : Engine) (oid : OverlayId)
    (payloads : List OperationPayload) (now : Nat) :
    Except EngineError (Engine × BundleId × Hlc) :=
  let hlc := tick eng.clock now
  let s2 := (payloads.enum).foldl (fun s p =>
    let payload := p.2
    let (canonicalValue, fieldKey) :=
      match payload with
      | .setField e k _ => (getField s e k, some k)
      | .clearField e k => (getField s e k, some k)
      | _ => (none, none)
    let row : OverlayOpRow :=
      ⟨nextRowid s, oid, eng.fresh + 1 + p.1, hlc, payload,
        payload.entityIdOf, fieldKey, payload.opTypeName, canonicalValue,
        false⟩
    { s with overlayOps := s.overlayOps ++ [row] }) eng.storage
  let eng2 : Engine :=
    { eng with
      storage := s2, clock := hlc,
      fresh := eng.fresh + 1 + payloads.length }
  Except.ok (eng2, eng.fresh, hlc)

/-- `Engine::execute_internal`: route to the overlay when one is active;
otherwise tick the clock, capture a pre-execution snapshot when undoable,
build the signed operations and bundle (creator VC = current stored vector
clock) and append atomically; push the undo entry and clear redo when
undoable.  On failure the storage is unchanged (the savepoint rolls back);
the in-memory clock advance on a failed append is not modelled, which no
modelled claim observes. -/
def executeInternal (eng : Engine) (bt : BundleType)
    (payloads : List OperationPayload) (isUndoable : Bool) (now : Nat) :
    Except EngineError (Engine × BundleId × Hlc) :=
  match eng.activeOverlay with
  | some oid => executeOverlay eng oid payloads now
  | none =>
    let bundleId : BundleId := eng.fresh
    let hlc := tick eng.clock now
    let operations := buildOps eng.selfActor payloads bundleId hlc
      (eng.fresh + 1)
    let bundle : Bundle :=
      ⟨bundleId, eng.selfActor, hlc, bt, some eng.storage.vectorClock, true⟩
    match appendBundle eng.storage bundle operations with
    | .error err => Except.error (.storage err)
    | .ok s2 =>
      let eng2 : Engine :=
        { eng with
          storage := s2, clock := hlc,
          fresh := eng.fresh + 1 + payloads.length }
      if isUndoable then
        let entry : UndoEntry :=
          ⟨bundleId, hlc, payloads, captureSnapshot eng.storage payloads⟩
        let eng3 : Engine :=
          { eng2 with
            undoStack := pushUndo eng2.undoStack entry, redoStack := [] }
        Except.ok (eng3, bundleId, hlc)
      else
        Except.ok (eng2, bundleId, hlc)

/-- `engine::UndoConflict`. -/
structure UndoConflict where
  entityId : EntityId
  fieldKey : String
  modifiedBy : ActorId
deriving DecidableEq, Repr

/-- `engine::UndoResult`. -/
inductive UndoResultT where
  | applied (bundleId : BundleId)
  | skipped (conflicts : List UndoConflict)
  | empty
deriving DecidableEq, Repr

/-- Field-level undo conflicts: for every field snapshot of the entry, a
conflict when the current row was written by another actor strictly after
the entry's bundle HLC. -/
def undoFieldConflicts (s : Storage) (selfActor : ActorId) (entry : UndoEntry) :
    List UndoConflict :=
  entry.snapshot.fieldStates.filterMap (fun fs =>
    match getFieldMetadata s fs.entityId fs.fieldKey with
    | some (actor, hlc) =>
      if actor != selfActor && Hlc.ltb entry.bundleHlc hlc then
        some ⟨fs.entityId, fs.fieldKey, actor⟩
      else none
    | none => none)

/-- Entity-level undo conflicts: when undoing a create (`existed = none`),
any current field on that entity written by another actor. -/
def undoEntityConflicts (s : Storage) (selfActor : ActorId)
    (entry : UndoEntry) : List UndoConflict :=
  entry.snapshot.entityStates.foldl (fun acc es =>
    if es.existed.isNone then
      acc ++ (getFields s es.entityId).filterMap (fun kv =>
        match getFieldMetadata s es.entityId kv.1 with
        | some (actor, _) =>
          if actor != selfActor then some ⟨es.entityId, kv.1, actor⟩ else none
        | none => none)
    else acc) []

/-- Fresh cascade edges computed from live storage
(`Engine::undo`, for CreateEntity → DeleteEntity inverses). -/
def freshCascade (s : Storage) (e : EntityId) : List EdgeId :=
  ((getEdgesFrom s e) ++ (getEdgesTo s e)).filterMap
    (fun r => if r.deleted then none else some r.edgeId)

/-- The per-payload fix-up `Engine::undo` applies to the computed inverse:
DeleteEntity inverses get fresh cascade edges from live storage. -/
def undoFixup (s : Storage) (p : OperationPayload) : OperationPayload :=
  match p with
  | .deleteEntity e _ => .deleteEntity e (freshCascade s e)
  | other => other

/-- `Engine::undo`: pop the entry; compute field- and entity-level
conflicts; when any exist return `Skipped` with the entry consumed;
otherwise execute the inverse payloads (fresh cascade edges for
DeleteEntity inverses) as a non-undoable UserEdit bundle and push the entry
onto the redo stack. -/
def Engine.undo (eng : Engine) (now : Nat) :
    Except EngineError (Engine × UndoResultT) :=
  match eng.undoStack.getLast? with
  | none => Except.ok (eng, .empty)
  | some entry =>
    let eng1 := { eng with undoStack := eng.undoStack.dropLast }
    let conflicts := undoFieldConflicts eng1.storage eng1.selfActor entry ++
      undoEntityConflicts eng1.storage eng1.selfActor entry
    if conflicts.isEmpty then
      let inverse := (computeInverse entry).map (undoFixup eng1.storage)
      match executeInternal eng1 .userEdit inverse false now with
      | .error err => Except.error err
      | .ok (eng2, bundleId, _) =>
        Except.ok ({ eng2 with redoStack := eng2.redoStack ++ [entry] },
          .applied bundleId)
    else
      Except.ok (eng1, .skipped conflicts)

/-- Payload fix-ups `Engine::redo` applies against the current DB state:
CreateEntity over a soft-deleted entity becomes RestoreEntity (plus
AttachFacet when the initial facet row is gone); CreateEdge over a
soft-deleted edge becomes RestoreEdge. -/
def redoFixups (s : Storage) (payloads : List OperationPayload) :
    List OperationPayload :=
  payloads.foldl (fun acc p =>
    match p with
    | .createEntity e initTable =>
      match lookupA s.entities e with
      | some er =>
        if er.deleted then
          let acc2 := acc ++ [.restoreEntity e]
          match initTable with
          | some ft =>
            if (getFacets s e).any (fun f => f.facetType == ft) then acc2
            else acc2 ++ [.attachFacet e ft]
          | none => acc2
        else acc ++ [p]
      | none => acc ++ [p]
    | .createEdge id _ _ _ _ =>
      match getEdgeRecord s id with
      | some er => if er.deleted then acc ++ [.restoreEdge id] else acc ++ [p]
      | none => acc ++ [p]
    | _ => acc ++ [p]) []

/-- `Engine::redo`: pop the redo entry, fix payloads up for the current DB
state, capture a fresh snapshot, execute non-undoably and push a new undo
entry. -/
def Engine.redo (eng : Engine) (now : Nat) :
    Except EngineError (Engine × UndoResultT) :=
  match eng.redoStack.getLast? with
  | none => Except.ok (eng, .empty)
  | some entry =>
    let eng1 := { eng with redoStack := eng.redoStack.dropLast }
    let fixedPayloads := redoFixups eng1.storage entry.payloads
    let snapshot := captureSnapshot eng1.storage fixedPayloads
    match executeInternal eng1 .userEdit fixedPayloads false now with
    | .error err => Except.error err
    | .ok (eng2, bundleId, hlc) =>
      let entry2 : UndoEntry := ⟨bundleId, hlc, fixedPayloads, snapshot⟩
      let eng3 : Engine :=
        { eng2 with undoStack := pushUndo eng2.undoStack entry2 }
      Except.ok (eng3, .applied bundleId)

/-- `Engine::resolve_conflict`: precondition open conflict; materialize a
`ResolveConflict` payload as a non-undoable UserEdit bundle, then mark the
conflict resolved with the bundle's HLC and the created op's id. -/
def resolveConflict (eng : Engine) (cid : ConflictId)
    (chosenValue : Option Val) (now : Nat) :
    Except EngineError (Engine × BundleId) :=
  match lookupA eng.storage.conflicts cid with
  | none => Except.error .conflictNotFound
  | some conflict =>
    match conflict.status with
    | .resolved => Except.error .conflictAlreadyResolved
    | .isOpen =>
      let payloads := [OperationPayload.resolveConflict cid conflict.entityId
        conflict.fieldKey chosenValue]
      match executeInternal eng .userEdit payloads false now with
      | .error err => Except.error err
      | .ok (eng2, bundleId, hlc) =>
        match (eng2.storage.oplog.filter
            (fun o => o.bundleId == bundleId)).head? with
        | none => Except.error .conflictNotFound
        | some op0 =>
          let s2 := updateConflictResolved eng2.storage cid hlc
            eng2.selfActor op0.opId chosenValue
          Except.ok ({ eng2 with storage := s2 }, bundleId)

/-- `count_unresolved_drift`. -/
def countUnresolvedDrift (s : Storage) (oid : OverlayId) : Nat :=
  (s.overlayOps.filter
    (fun r => r.overlayId == oid && r.canonicalDrifted)).length

/-- `get_overlay_ops` (ordered by rowid, which is insertion order here). -/
def getOverlayOps (s : Storage) (oid : OverlayId) : List OverlayOpRow :=
  s.overlayOps.filter (fun r => r.overlayId == oid)

/-- `delete_overlay`: remove the overlay ops then the overlay row. -/
def deleteOverlay (s : Storage) (oid : OverlayId) : Storage :=
  { s with
    overlayOps := s.overlayOps.filter (fun r => !(r.overlayId == oid)),
    overlays := s.overlays.filter (fun p => !(p.1 == oid)) }

/-- `Engine::discard_overlay`. -/
def discardOverlay (eng : Engine) (oid : OverlayId) : Engine :=
  let eng1 := { eng with storage := deleteOverlay eng.storage oid }
  if eng1.activeOverlay == some oid then { eng1 with activeOverlay := none }
  else eng1

/-- `update_overlay_status`. -/
def updateOverlayStatus (s : Storage) (oid : OverlayId) (status : String)
    (at_ : Hlc) : Storage :=
  { s with overlays := updateA s.overlays oid (fun r =>
    { r with status := status, updatedAt := at_ }) }

/-- `Engine::commit_overlay`: fail on unresolved drift; on an overlay with
no ops, DISCARD the overlay and fail with EmptyOverlay; otherwise
deactivate, execute the overlay payloads as one canonical non-undoable
UserEdit bundle, mark the overlay committed and drift-scan the committed
fields.  The engine state is always returned because the empty-overlay path
mutates storage before erroring (and deactivation happens outside the
transaction). -/
def commitOverlay (eng : Engine) (oid : OverlayId) (now1 now2 : Nat) :
    Engine × Except EngineError BundleId :=
  if countUnresolvedDrift eng.storage oid > 0 then
    (eng, .error (.unresolvedDrift oid))
  else
    let overlayOps := getOverlayOps eng.storage oid
    if overlayOps.isEmpty then
      (discardOverlay eng oid, .error (.emptyOverlay oid))
    else
      let payloads := overlayOps.map (·.payload)
      let modifiedFields := payloads.filterMap (fun p =>
        match p with
        | .setField e k _ => some (e, k)
        | .clearField e k => some (e, k)
        | _ => none)
      let eng1 := if eng.activeOverlay == some oid then
        { eng with activeOverlay := none } else eng
      match executeInternal eng1 .userEdit payloads false now1 with
      | .error err => (eng1, .error err)
      | .ok (eng2, bundleId, _) =>
        let hlc2 := tick eng2.clock now2
        let s3 := updateOverlayStatus eng2.storage oid "committed" hlc2
        let s4 := scanOverlayDrift s3 modifiedFields
        ({ eng2 with clock := hlc2, storage := s4 }, .ok bundleId)

/-- A successful op append extends the oplog by exactly that op. -/
theorem appendOpStep_oplog (b : Bundle) (s : Storage) (op : Operation)
    (s2 : Storage) (h : appendOpStep b s op = .ok s2) :
    s2.oplog = s.oplog ++ [op] := by
  unfold appendOpStep at h
  split at h
  · cases h
  · split at h
    · cases h
    next sm hmat =>
      simp only [] at h
      cases h
      exact (materializeOp_frame _ _ _ _ hmat).2.1

/-- A successful append loop extends the oplog by exactly the given ops. -/
theorem appendLoop_oplog (b : Bundle) :
    ∀ (ops : List Operation) (s s2 : Storage),
    ops.foldlM (appendOpStep b) s = .ok s2 → s2.oplog = s.oplog ++ ops := by
  intro ops
  induction ops with
  | nil =>
    intro s s2 h
    injection h with h
    subst h
    simp
  | cons op t ih =>
    intro s s2 h
    rw [List.foldlM_cons] at h
    obtain ⟨s1, hstep, h⟩ := exceptBind_eq_ok h
    rw [ih s1 s2 h, appendOpStep_oplog b s op s1 hstep]
    simp

/-- A successful append of a NEW bundle extends the oplog by its ops. -/
theorem appendBundle_oplog (s : Storage) (b : Bundle) (ops : List Operation)
    (s2 : Storage) (hnb : lookupA s.bundles b.bundleId = none)
    (h : appendBundle s b ops = .ok s2) : s2.oplog = s.oplog ++ ops := by
  unfold appendBundle at h
  rw [hnb] at h
  simp only [] at h
  have h2 := appendLoop_oplog b ops _ s2 h
  exact h2

/-- Inversion of a successful non-overlay `execute_internal` run: the
bundle id is the pre-call fresh id, the HLC is one tick of the clock, and
the storage is the result of appending the built bundle. -/
theorem executeInternal_ok_inv (eng : Engine) (bt : BundleType)
    (payloads : List OperationPayload) (u : Bool) (now : Nat)
    (eng2 : Engine) (bid : BundleId) (h2 : Hlc)
    (hov : eng.activeOverlay = none)
    (h : executeInternal eng bt payloads u now = .ok (eng2, bid, h2)) :
    bid = eng.fresh ∧ h2 = tick eng.clock now ∧
    eng2.selfActor = eng.selfActor ∧
    appendBundle eng.storage
      ⟨eng.fresh, eng.selfActor, tick eng.clock now, bt,
        some eng.storage.vectorClock, true⟩
      (buildOps eng.selfActor payloads eng.fresh (tick eng.clock now)
        (eng.fresh + 1)) = .ok eng2.storage := by
  unfold executeInternal at h
  rw [hov] at h
  simp only [] at h
  split at h
  · cases h
  next s2 happ =>
    split at h
    · cases h
      exact ⟨rfl, rfl, rfl, happ⟩
    · cases h
      exact ⟨rfl, rfl, rfl, happ⟩

/-- Claim C5 (amended): the `ResolveConflict` op's `(hlc, op_id)` strictly
dominates every branch tip whose HLC wall clock lies in the physical past
(`tip.hlc.wall < now`); tips carrying a FUTURE wall clock need not be
dominated, because ingest never feeds remote HLCs into the local clock. -/
theorem resolve_dominates_past_tips (eng : Engine) (cid : ConflictId)
    (chosen : Option Val) (now : Nat) (eng2 : Engine) (bid : BundleId)
    (conflict : ConflictRow) (tip : ConflictValue)
    (hov : eng.activeOverlay = none)
    (hconf : lookupA eng.storage.conflicts cid = some conflict)
    (hnb : lookupA eng.storage.bundles eng.fresh = none)
    (hfresh : ∀ o ∈ eng.storage.oplog, ¬((o.bundleId == eng.fresh) = true))
    (htip : tip ∈ conflict.values)
    (hwall : tip.hlc.wall < now)
    (hrun : resolveConflict eng cid chosen now = .ok (eng2, bid)) :
    ∃ c2 rAt rOp,
      lookupA eng2.storage.conflicts cid = some c2 ∧
      c2.status = .resolved ∧
      c2.resolvedAt = some rAt ∧ c2.resolvedOpId = some rOp ∧
      keyLtb tip.hlc tip.opId rAt rOp = true := by
  unfold resolveConflict at hrun
  rw [hconf] at hrun
  simp only [] at hrun
  split at hrun
  · cases hrun
  · split at hrun
    · cases hrun
    next eng2x bidx hlcx hexec =>
      obtain ⟨hbid, hhlc, hself, happ⟩ :=
        executeInternal_ok_inv eng .userEdit _ false now eng2x bidx hlcx
          hov hexec
      subst hbid
      subst hhlc
      have hoplog := appendBundle_oplog _ _ _ _ hnb happ
      rw [hoplog] at hrun
      rw [List.filter_append, List.filter_eq_nil_iff.mpr hfresh] at hrun
      rw [show (buildOps eng.selfActor
          [OperationPayload.resolveConflict cid conflict.entityId
            conflict.fieldKey chosen] eng.fresh (tick eng.clock now)
          (eng.fresh + 1)).filter (fun o => o.bundleId == eng.fresh) =
          [⟨eng.fresh + 1, eng.selfActor, tick eng.clock now, eng.fresh,
            OperationPayload.resolveConflict cid conflict.entityId
              conflict.fieldKey chosen, true⟩] from by
        simp [buildOps, List.enum, List.enumFrom]] at hrun
      have hrun2 :
          Except.ok
            (({ eng2x with
                storage := updateConflictResolved eng2x.storage cid
                  (tick eng.clock now) eng2x.selfActor (eng.fresh + 1)
                  chosen } : Engine),
              eng.fresh) =
            Except.ok (eng2, bid) := hrun
      cases hrun2
      have hcf : eng2x.storage.conflicts = eng.storage.conflicts :=
        (appendBundle_frame _ _ _ _ happ).1
      refine ⟨{ conflict with
          status := .resolved,
          resolvedAt := some (tick eng.clock now),
          resolvedBy := some eng2x.selfActor,
          resolvedOpId := some (eng.fresh + 1),
          resolvedValue := chosen },
        tick eng.clock now, eng.fresh + 1, ?_, rfl, rfl, rfl, ?_⟩
      · simp only [updateConflictResolved]
        rw [lookupA_updateA, if_pos rfl, hcf, hconf]
        rfl
      · have hw : tip.hlc.wall < (tick eng.clock now).wall := by
          unfold tick
          split
          · exact hwall
          next hc =>
            show tip.hlc.wall < eng.clock.wall
            omega
        have hl : Hlc.ltb tip.hlc (tick eng.clock now) = true :=
          Hlc.ltb_iff.mpr (Or.inl hw)
        simp [keyLtb, hl]

/-- The single branch tip of the C5 conflict, carrying a FUTURE HLC
(wall 200) relative to the resolving replica's physical clock. -/
def c5Tip : ConflictValue := ⟨some 5, 2, ⟨200, 0⟩, 57⟩

/-- The open C5 conflict on `(9, "f")`. -/
def c5Conflict : ConflictRow :=
  ⟨9, "f", .isOpen, [c5Tip], ⟨200, 0⟩, 43, none, none, none, none, none,
   none⟩

/-- C5 engine: local clock at (0,0), one open conflict with a future tip. -/
def c5Eng : Engine :=
  { selfActor := 1, clock := ⟨0, 0⟩,
    storage := { Storage.empty with
      entities := [(9, ⟨⟨50, 0⟩, 1, 30, none, none, none⟩)],
      conflicts := [(80, c5Conflict)] },
    undoStack := [], redoStack := [], activeOverlay := none, fresh := 100 }

/-- C5 counterexample: resolving at physical time 100 while a branch tip
carries wall clock 200 stamps the resolution with HLC (100,0), which does
NOT dominate the tip `((200,0), 57)` — the spec's unqualified dominance
guarantee fails for future-dated tips, since ingest never advances the
local clock to remote HLCs. -/
theorem resolve_not_dominating_future_tip :
    ∃ eng2 bid c2,
      resolveConflict c5Eng 80 (some 3) 100 = .ok (eng2, bid) ∧
      lookupA eng2.storage.conflicts 80 = some c2 ∧
      c2.status = .resolved ∧
      c2.resolvedAt = some ⟨100, 0⟩ ∧
      c5Tip ∈ c5Conflict.values ∧
      keyLtb c5Tip.hlc c5Tip.opId ⟨100, 0⟩ (c2.resolvedOpId.getD 0) =
        false := by
  exact ⟨_, _, _, rfl, rfl, rfl, rfl, by decide, by decide⟩

/-- Engine and bundle id produced by the C5 witness resolution (physical
time 300, strictly after the tip's wall clock). -/
def c5R : Engine × BundleId :=
  match resolveConflict c5Eng 80 (some 3) 300 with
  | .ok r => r
  | .error _ => (c5Eng, 0)

/-- Witness for the amended C5 theorem at physical time 300. -/
theorem resolve_dominates_past_tips_witness :
    ∃ c2 rAt rOp,
      lookupA c5R.1.storage.conflicts 80 = some c2 ∧
      c2.status = .resolved ∧
      c2.resolvedAt = some rAt ∧ c2.resolvedOpId = some rOp ∧
      keyLtb c5Tip.hlc c5Tip.opId rAt rOp = true := by
  exact resolve_dominates_past_tips c5Eng 80 (some 3) 300 c5R.1 c5R.2
    c5Conflict c5Tip rfl rfl rfl (by decide) (by decide) (by decide)
    (by rfl)

/-- Claim C6: undo is skip-and-advance.  When the popped entry has a field
snapshot whose current storage metadata shows a DIFFERENT actor writing
STRICTLY AFTER the entry's bundle HLC, `undo` returns `Skipped` carrying
exactly the computed conflicts (the witnessing field among them), the entry
is consumed (undo stack popped, redo stack and storage untouched), and no
inverse bundle is appended. -/
theorem undo_skip_and_advance (eng : Engine) (now : Nat) (entry : UndoEntry)
    (fs : FieldSnapshot) (a : ActorId) (h : Hlc)
    (hlast : eng.undoStack.getLast? = some entry)
    (hfs : fs ∈ entry.snapshot.fieldStates)
    (hmeta : getFieldMetadata eng.storage fs.entityId fs.fieldKey =
      some (a, h))
    (ha : a ≠ eng.selfActor)
    (hh : Hlc.ltb entry.bundleHlc h = true) :
    (⟨fs.entityId, fs.fieldKey, a⟩ : UndoConflict) ∈
      undoFieldConflicts eng.storage eng.selfActor entry ∧
    Engine.undo eng now = .ok
      ({ eng with undoStack := eng.undoStack.dropLast },
        .skipped (undoFieldConflicts eng.storage eng.selfActor entry ++
          undoEntityConflicts eng.storage eng.selfActor entry)) := by
  have hmem : (⟨fs.entityId, fs.fieldKey, a⟩ : UndoConflict) ∈
      undoFieldConflicts eng.storage eng.selfActor entry := by
    unfold undoFieldConflicts
    rw [List.mem_filterMap]
    refine ⟨fs, hfs, ?_⟩
    simp [hmeta, ha, hh]
  refine ⟨hmem, ?_⟩
  have hne : (undoFieldConflicts eng.storage eng.selfActor entry ++
      undoEntityConflicts eng.storage eng.selfActor entry).isEmpty =
      false := by
    have hnn := List.ne_nil_of_mem (List.mem_append_left
      (undoEntityConflicts eng.storage eng.selfActor entry) hmem)
    cases hc : undoFieldConflicts eng.storage eng.selfActor entry ++
        undoEntityConflicts eng.storage eng.selfActor entry with
    | nil => exact absurd hc hnn
    | cons x xs => rfl
  simp [Engine.undo, hlast, hne]

/-- C6 field row on `(9, "f")` written by foreign actor 2 at HLC (500,0). -/
def c6Storage : Storage :=
  { Storage.empty with
    entities := [(9, ⟨⟨50, 0⟩, 1, 30, none, none, none⟩)],
    fields := [((9, "f"), ⟨some 7, 60, 2, ⟨500, 0⟩⟩)] }

/-- C6 undo entry: local SetField at bundle HLC (100,0), snapshot of the
field's old state. -/
def c6Entry : UndoEntry :=
  ⟨50, ⟨100, 0⟩, [.setField 9 "f" 4],
   ⟨[⟨9, "f", some 3, some (1, ⟨100, 0⟩)⟩], [], [], [], []⟩⟩

/-- C6 engine: one undoable entry, field since overwritten by actor 2. -/
def c6Eng : Engine :=
  { selfActor := 1, clock := ⟨600, 0⟩, storage := c6Storage,
    undoStack := [c6Entry], redoStack := [], activeOverlay := none,
    fresh := 200 }

/-- Witness for C6 at the concrete skip scenario. -/
theorem undo_skip_and_advance_witness :
    (⟨9, "f", 2⟩ : UndoConflict) ∈
      undoFieldConflicts c6Eng.storage c6Eng.selfActor c6Entry ∧
    Engine.undo c6Eng 600 = .ok
      ({ c6Eng with undoStack := c6Eng.undoStack.dropLast },
        .skipped (undoFieldConflicts c6Eng.storage c6Eng.selfActor c6Entry ++
          undoEntityConflicts c6Eng.storage c6Eng.selfActor c6Entry)) := by
  exact undo_skip_and_advance c6Eng 600 c6Entry ⟨9, "f", some 3,
    some (1, ⟨100, 0⟩)⟩ 2 ⟨500, 0⟩ (by rfl) (by decide) (by rfl)
    (by decide) (by rfl)

/-- C9 overlay row (no ops attached). -/
def c9Overlay : OverlayRow := ⟨"draft", "user", "active", ⟨400, 0⟩, ⟨400, 0⟩⟩

/-- C9 engine: an active empty overlay 75 plus unrelated canonical state. -/
def c9Eng : Engine :=
  { selfActor := 1, clock := ⟨450, 0⟩,
    storage := { Storage.empty with
      entities := [(9, ⟨⟨50, 0⟩, 1, 30, none, none, none⟩)],
      overlays := [(75, c9Overlay)] },
    undoStack := [], redoStack := [], activeOverlay := some 75,
    fresh := 300 }

/-- C9 counterexample: committing an overlay with no ops DOES fail with
`EmptyOverlay`, but it is not mutation-free — the overlay row is deleted
(and the active overlay deactivated) before the error is returned. -/
theorem commit_empty_overlay_mutates :
    (commitOverlay c9Eng 75 500 501).2 = .error (.emptyOverlay 75) ∧
    (commitOverlay c9Eng 75 500 501).1.storage.overlays = [] ∧
    (commitOverlay c9Eng 75 500 501).1.activeOverlay = none ∧
    c9Eng.storage.overlays = [(75, c9Overlay)] := by
  exact ⟨rfl, rfl, rfl, rfl⟩

/-- Claim C9 (amended): committing an overlay that has no ops (and no
unresolved drift) fails with `EmptyOverlay`, but the failure is not
mutation-free: the overlay is DISCARDED — its row (and empty op list) are
deleted and it is deactivated if active — exactly as by
`discard_overlay`. -/
theorem commit_empty_overlay (eng : Engine) (oid : OverlayId) (n1 n2 : Nat)
    (hnodrift : countUnresolvedDrift eng.storage oid = 0)
    (hempty : getOverlayOps eng.storage oid = []) :
    commitOverlay eng oid n1 n2 =
      (discardOverlay eng oid, .error (.emptyOverlay oid)) := by
  simp [commitOverlay, hnodrift, hempty]

/-- Witness for the amended C9 theorem at the concrete empty overlay. -/
theorem commit_empty_overlay_witness :
    commitOverlay c9Eng 75 500 501 =
      (discardOverlay c9Eng 75, .error (.emptyOverlay 75)) := by
  exact commit_empty_overlay c9Eng 75 500 501 (by rfl) (by rfl)

/-- Strict below a smaller bound gives disequality. -/
theorem ne_of_lt_le {a b c : Nat} (h : a < b) (h2 : b ≤ c) : a ≠ c :=
  Nat.ne_of_lt (Nat.lt_of_lt_of_le h h2)

/-- One clock tick strictly increases the HLC, whatever the physical time. -/
theorem tick_gt (c : Hlc) (n : Nat) : Hlc.ltb c (tick c n) = true := by
  unfold tick
  split
  · exact Hlc.ltb_iff.mpr (Or.inl (by assumption))
  · exact Hlc.ltb_iff.mpr (Or.inr ⟨rfl, Nat.lt_succ_self _⟩)

/-- A strict HLC order makes the `(hlc, op_id)` key order strict. -/
theorem keyLtb_of_ltb {h1 h2 : Hlc} (o1 o2 : OpId)
    (h : Hlc.ltb h1 h2 = true) : keyLtb h1 o1 h2 o2 = true := by
  simp [keyLtb, h]

/-- A key absent from every row looks up to `none`. -/
theorem lookupA_eq_none {κ α : Type} [DecidableEq κ] (m : List (κ × α))
    (k : κ) (h : ∀ p ∈ m, p.1 ≠ k) : lookupA m k = none := by
  induction m with
  | nil => rfl
  | cons p t ih =>
    rw [lookupA_cons, if_neg (h p (by simp))]
    exact ih (fun q hq => h q (by simp [hq]))

/-- The LWW upsert leaves every other key untouched. -/
theorem lookupA_lwwUpsert_other {κ : Type} [DecidableEq κ]
    (m : List (κ × FieldRow)) (key key2 : κ) (new : FieldRow)
    (hne : key ≠ key2) :
    lookupA (lwwUpsert m key new) key2 = lookupA m key2 := by
  unfold lwwUpsert
  cases h : lookupA m key with
  | none =>
    rw [lookupA_append]
    cases h2 : lookupA m key2 with
    | none => simp [hne]
    | some r => simp
  | some r => rw [lookupA_updateA, if_neg hne]

/-- Below the depth limit, `push_undo` is a plain push-back. -/
theorem pushUndo_of_lt (stack : List UndoEntry) (entry : UndoEntry)
    (h : stack.length < DEFAULT_UNDO_DEPTH) :
    pushUndo stack entry = stack ++ [entry] := by
  unfold pushUndo
  rw [if_neg]
  simp
  omega

/-- Computation rule for a successful single-`SetField` canonical execute:
the `fields` table gets one LWW upsert stamped with the single clock tick
and the fresh op id; every other materialized table is untouched; bundles,
oplog, clock, fresh counter and the undo/redo stacks evolve as coded. -/
theorem executeInternal_setField (eng : Engine) (e : EntityId) (k : String)
    (v : Val) (u : Bool) (now : Nat)
    (hov : eng.activeOverlay = none)
    (hb : lookupA eng.storage.bundles eng.fresh = none)
    (ho : ∀ o ∈ eng.storage.oplog, o.opId ≠ eng.fresh + 1) :
    ∃ eng2,
      executeInternal eng .userEdit [.setField e k v] u now =
        .ok (eng2, eng.fresh, tick eng.clock now) ∧
      eng2.storage.fields = lwwUpsert eng.storage.fields (e, k)
        ⟨some v, eng.fresh + 1, eng.selfActor, tick eng.clock now⟩ ∧
      eng2.storage.entities = eng.storage.entities ∧
      eng2.storage.facets = eng.storage.facets ∧
      eng2.storage.edges = eng.storage.edges ∧
      eng2.storage.edgeProps = eng.storage.edgeProps ∧
      eng2.storage.bundles = eng.storage.bundles ++
        [(eng.fresh, ⟨eng.fresh, eng.selfActor, tick eng.clock now, .userEdit,
          some eng.storage.vectorClock, true⟩)] ∧
      eng2.storage.oplog = eng.storage.oplog ++
        [⟨eng.fresh + 1, eng.selfActor, tick eng.clock now, eng.fresh,
          .setField e k v, true⟩] ∧
      eng2.selfActor = eng.selfActor ∧
      eng2.clock = tick eng.clock now ∧
      eng2.fresh = eng.fresh + 2 ∧
      eng2.activeOverlay = none ∧
      (u = true → eng2.undoStack = pushUndo eng.undoStack
          ⟨eng.fresh, tick eng.clock now, [.setField e k v],
            captureSnapshot eng.storage [.setField e k v]⟩ ∧
        eng2.redoStack = []) ∧
      (u = false → eng2.undoStack = eng.undoStack ∧
        eng2.redoStack = eng.redoStack) := by
  have hany : eng.storage.oplog.any
      (fun o => o.opId == eng.fresh + 1) = false := by
    rw [List.any_eq_false]
    intro o hm
    simpa using ho o hm
  cases u with
  | false =>
    cases hres : executeInternal eng .userEdit [.setField e k v] false now with
    | error err =>
      exfalso
      simp [executeInternal, hov, buildOps, List.enum, List.enumFrom,
        appendBundle, hb, List.foldlM, appendOpStep, hany,
        materializeOp] at hres
    | ok trip =>
      have hres2 := hres
      simp only [executeInternal, hov, buildOps, List.enum, List.enumFrom,
        appendBundle, hb, List.foldlM, appendOpStep, hany, materializeOp,
        Bool.false_eq_true, if_false, ite_false, exceptBind_ok,
        exceptPure_eq_ok, Except.ok.injEq] at hres2
      subst hres2
      refine ⟨_, rfl, ?_, ?_, ?_, ?_, ?_, ?_, ?_, ?_, ?_, ?_, ?_, ?_⟩
      all_goals try rfl
      all_goals try constructor
      all_goals intro h
      all_goals first
        | exact ⟨rfl, rfl⟩
        | exact absurd h (by simp)
  | true =>
    cases hres : executeInternal eng .userEdit [.setField e k v] true now with
    | error err =>
      exfalso
      simp [executeInternal, hov, buildOps, List.enum, List.enumFrom,
        appendBundle, hb, List.foldlM, appendOpStep, hany,
        materializeOp] at hres
    | ok trip =>
      have hres2 := hres
      simp only [executeInternal, hov, buildOps, List.enum, List.enumFrom,
        appendBundle, hb, List.foldlM, appendOpStep, hany, materializeOp,
        Bool.false_eq_true, if_false, ite_true, exceptBind_ok,
        exceptPure_eq_ok, Except.ok.injEq] at hres2
      subst hres2
      refine ⟨_, rfl, ?_, ?_, ?_, ?_, ?_, ?_, ?_, ?_, ?_, ?_, ?_, ?_⟩
      all_goals try rfl
      all_goals try constructor
      all_goals intro h
      all_goals first
        | exact ⟨rfl, rfl⟩
        | exact absurd h (by simp)

/-- Computation rule for a successful single-`ClearField` canonical
execute (same shape as the SetField rule, tombstone value). -/
theorem executeInternal_clearField (eng : Engine) (e : EntityId) (k : String)
    (u : Bool) (now : Nat)
    (hov : eng.activeOverlay = none)
    (hb : lookupA eng.storage.bundles eng.fresh = none)
    (ho : ∀ o ∈ eng.storage.oplog, o.opId ≠ eng.fresh + 1) :
    ∃ eng2,
      executeInternal eng .userEdit [.clearField e k] u now =
        .ok (eng2, eng.fresh, tick eng.clock now) ∧
      eng2.storage.fields = lwwUpsert eng.storage.fields (e, k)
        ⟨none, eng.fresh + 1, eng.selfActor, tick eng.clock now⟩ ∧
      eng2.storage.entities = eng.storage.entities ∧
      eng2.storage.facets = eng.storage.facets ∧
      eng2.storage.edges = eng.storage.edges ∧
      eng2.storage.edgeProps = eng.storage.edgeProps ∧
      eng2.storage.bundles = eng.storage.bundles ++
        [(eng.fresh, ⟨eng.fresh, eng.selfActor, tick eng.clock now, .userEdit,
          some eng.storage.vectorClock, true⟩)] ∧
      eng2.storage.oplog = eng.storage.oplog ++
        [⟨eng.fresh + 1, eng.selfActor, tick eng.clock now, eng.fresh,
          .clearField e k, true⟩] ∧
      eng2.selfActor = eng.selfActor ∧
      eng2.clock = tick eng.clock now ∧
      eng2.fresh = eng.fresh + 2 ∧
      eng2.activeOverlay = none ∧
      (u = false → eng2.undoStack = eng.undoStack ∧
        eng2.redoStack = eng.redoStack) := by
  have hany : eng.storage.oplog.any
      (fun o => o.opId == eng.fresh + 1) = false := by
    rw [List.any_eq_false]
    intro o hm
    simpa using ho o hm
  cases u with
  | false =>
    cases hres : executeInternal eng .userEdit [.clearField e k] false now with
    | error err =>
      exfalso
      simp [executeInternal, hov, buildOps, List.enum, List.enumFrom,
        appendBundle, hb, List.foldlM, appendOpStep, hany,
        materializeOp] at hres
    | ok trip =>
      have hres2 := hres
      simp only [executeInternal, hov, buildOps, List.enum, List.enumFrom,
        appendBundle, hb, List.foldlM, appendOpStep, hany, materializeOp,
        Bool.false_eq_true, if_false, ite_false, exceptBind_ok,
        exceptPure_eq_ok, Except.ok.injEq] at hres2
      subst hres2
      refine ⟨_, rfl, ?_, ?_, ?_, ?_, ?_, ?_, ?_, ?_, ?_, ?_, ?_, ?_⟩
      all_goals try rfl
      all_goals try constructor
      all_goals intro h
      all_goals first
        | exact ⟨rfl, rfl⟩
        | exact absurd h (by simp)
  | true =>
    cases hres : executeInternal eng .userEdit [.clearField e k] true now with
    | error err =>
      exfalso
      simp [executeInternal, hov, buildOps, List.enum, List.enumFrom,
        appendBundle, hb, List.foldlM, appendOpStep, hany,
        materializeOp] at hres
    | ok trip =>
      have hres2 := hres
      simp only [executeInternal, hov, buildOps, List.enum, List.enumFrom,
        appendBundle, hb, List.foldlM, appendOpStep, hany, materializeOp,
        Bool.false_eq_true, if_false, ite_true, exceptBind_ok,
        exceptPure_eq_ok, Except.ok.injEq] at hres2
      subst hres2
      refine ⟨_, rfl, ?_, ?_, ?_, ?_, ?_, ?_, ?_, ?_, ?_, ?_, ?_, ?_⟩
      all_goals try rfl
      all_goals try constructor
      all_goals intro h
      all_goals first
        | exact ⟨rfl, rfl⟩
        | exact absurd h (by simp)

/-- Claim C7 (amended, positive half): for a single undoable `SetField`
command executed with no concurrent foreign edits — every row currently at
the written key is older than the next clock tick, ids are fresh, the undo
stack is below its depth limit — `do; undo` restores every `get_field`
observable and leaves the entity/facet/edge tables bitwise unchanged, and
`do; undo; redo` restores the post-state's `get_field` observables and
tables.  (The unrestricted round trip over all command kinds is refuted
separately.) -/
theorem setfield_undo_redo_roundtrip (eng : Engine) (e : EntityId)
    (k : String) (v : Val) (n1 n2 n3 : Nat)
    (hov : eng.activeOverlay = none)
    (hdepth : eng.undoStack.length < DEFAULT_UNDO_DEPTH)
    (hbids : ∀ p ∈ eng.storage.bundles, p.1 < eng.fresh)
    (hops : ∀ o ∈ eng.storage.oplog, o.opId < eng.fresh)
    (hdom : ∀ r, lookupA eng.storage.fields (e, k) = some r →
      Hlc.ltb r.updatedAt (tick eng.clock n1) = true) :
    ∃ eng2 eng3 eng4 bid2 bid3,
      executeInternal eng .userEdit [.setField e k v] true n1 =
        .ok (eng2, eng.fresh, tick eng.clock n1) ∧
      Engine.undo eng2 n2 = .ok (eng3, .applied bid2) ∧
      Engine.redo eng3 n3 = .ok (eng4, .applied bid3) ∧
      (∀ e2 k2, getField eng3.storage e2 k2 = getField eng.storage e2 k2) ∧
      eng3.storage.entities = eng.storage.entities ∧
      eng3.storage.facets = eng.storage.facets ∧
      eng3.storage.edges = eng.storage.edges ∧
      (∀ e2 k2, getField eng4.storage e2 k2 = getField eng2.storage e2 k2) ∧
      eng4.storage.entities = eng2.storage.entities ∧
      eng4.storage.facets = eng2.storage.facets ∧
      eng4.storage.edges = eng2.storage.edges := by
  have hb1 : lookupA eng.storage.bundles eng.fresh = none :=
    lookupA_eq_none _ _ (fun p hp => Nat.ne_of_lt (hbids p hp))
  have ho1 : ∀ o ∈ eng.storage.oplog, o.opId ≠ eng.fresh + 1 :=
    fun o hm => ne_of_lt_le (hops o hm) (Nat.le_add_right _ _)
  obtain ⟨eng2, hrun1, hf2, hent2, hfac2, hedg2, hep2, hbun2, hopl2, hself2,
    hclk2, hfresh2, hov2, himpT, himpF⟩ :=
    executeInternal_setField eng e k v true n1 hov hb1 ho1
  obtain ⟨hstk2, hrds2⟩ := himpT rfl
  have hlast : eng2.undoStack.getLast? = some
      (⟨eng.fresh, tick eng.clock n1, [.setField e k v],
        captureSnapshot eng.storage [.setField e k v]⟩ : UndoEntry) := by
    rw [hstk2, pushUndo_of_lt _ _ hdepth, List.getLast?_concat]
  have hlk2 : lookupA eng2.storage.fields (e, k) =
      some ⟨some v, eng.fresh + 1, eng.selfActor, tick eng.clock n1⟩ := by
    rw [hf2, lookupA_lwwUpsert_self]
    cases hpre0 : lookupA eng.storage.fields (e, k) with
    | none => rfl
    | some r =>
      simp only []
      rw [if_pos (keyLtb_of_ltb _ _ (hdom r hpre0))]
  have hmeta2 : getFieldMetadata eng2.storage e k =
      some (eng.selfActor, tick eng.clock n1) := by
    unfold getFieldMetadata
    rw [hlk2]
    rfl
  have hconfs : undoFieldConflicts eng2.storage eng2.selfActor
        ⟨eng.fresh, tick eng.clock n1, [.setField e k v],
          captureSnapshot eng.storage [.setField e k v]⟩ ++
      undoEntityConflicts eng2.storage eng2.selfActor
        ⟨eng.fresh, tick eng.clock n1, [.setField e k v],
          captureSnapshot eng.storage [.setField e k v]⟩ =
      ([] : List UndoConflict) := by
    have h1 : undoFieldConflicts eng2.storage eng2.selfActor
        ⟨eng.fresh, tick eng.clock n1, [.setField e k v],
          captureSnapshot eng.storage [.setField e k v]⟩ = [] := by
      simp [undoFieldConflicts, captureSnapshot, hmeta2, hself2]
    have h2 : undoEntityConflicts eng2.storage eng2.selfActor
        ⟨eng.fresh, tick eng.clock n1, [.setField e k v],
          captureSnapshot eng.storage [.setField e k v]⟩ = [] := by
      simp [undoEntityConflicts, captureSnapshot]
    rw [h1, h2]
    rfl
  have hb2 : lookupA eng2.storage.bundles eng2.fresh = none := by
    rw [hbun2, hfresh2]
    apply lookupA_eq_none
    intro p hp
    rcases List.mem_append.mp hp with h | h
    · exact ne_of_lt_le (hbids p h) (Nat.le_add_right _ _)
    · rw [List.mem_singleton] at h
      subst h
      show eng.fresh ≠ eng.fresh + 2
      omega
  have ho2 : ∀ o ∈ eng2.storage.oplog, o.opId ≠ eng2.fresh + 1 := by
    intro o hm
    rw [hopl2] at hm
    rw [hfresh2]
    rcases List.mem_append.mp hm with h | h
    · exact ne_of_lt_le (hops o h) (Nat.le_add_right _ 3)
    · rw [List.mem_singleton] at h
      subst h
      show eng.fresh + 1 ≠ eng.fresh + 2 + 1
      omega
  cases hgf : getField eng.storage e k with
  | some prev =>
    obtain ⟨eng3p, hrun2, hf3, hent3, hfac3, hedg3, hep3, hbun3, hopl3,
      hself3, hclk3, hfresh3, hov3, himpT3, himpF3⟩ :=
      executeInternal_setField
        ({ eng2 with undoStack := eng2.undoStack.dropLast }) e k prev false
        n2 hov2 hb2 ho2
    simp only [] at hf3 hent3 hfac3 hedg3 hep3 hbun3 hopl3 hself3 hclk3
    simp only [] at hfresh3
    obtain ⟨hstk3, hrdse3⟩ := himpF3 rfl
    simp only [] at hrdse3
    have hinv : computeInverse ⟨eng.fresh, tick eng.clock n1,
        [.setField e k v], captureSnapshot eng.storage [.setField e k v]⟩ =
        [.setField e k prev] := by
      simp [computeInverse, captureSnapshot, hgf]
    have hundo : Engine.undo eng2 n2 = .ok
        ({ eng3p with redoStack := eng3p.redoStack ++
            [⟨eng.fresh, tick eng.clock n1, [.setField e k v],
              captureSnapshot eng.storage [.setField e k v]⟩] },
          .applied eng2.fresh) := by
      unfold Engine.undo
      rw [hlast]
      simp only []
      rw [hconfs]
      simp only [List.isEmpty_nil, ite_true]
      rw [hinv]
      simp only [List.map_cons, List.map_nil, undoFixup]
      rw [hrun2]
    have hlt23 : Hlc.ltb (tick eng.clock n1) (tick eng2.clock n2) = true := by
      rw [hclk2]
      exact tick_gt _ _
    have hlk3 : lookupA eng3p.storage.fields (e, k) =
        some ⟨some prev, eng2.fresh + 1, eng2.selfActor,
          tick eng2.clock n2⟩ := by
      rw [hf3, lookupA_lwwUpsert_self, hlk2]
      simp only []
      rw [if_pos (keyLtb_of_ltb _ _ hlt23)]
    have hgf3 : ∀ e2 k2, getField eng3p.storage e2 k2 =
        getField eng.storage e2 k2 := by
      intro e2 k2
      by_cases hek : (e, k) = (e2, k2)
      · injection hek with he hk
        subst he
        subst hk
        have hl : getField eng3p.storage e k = some prev := by
          unfold getField
          rw [hlk3]
        rw [hl, hgf]
      · unfold getField
        rw [hf3, lookupA_lwwUpsert_other _ _ _ _ hek, hf2,
          lookupA_lwwUpsert_other _ _ _ _ hek]
    have hfr3 : eng3p.fresh = eng.fresh + 4 := by
      rw [hfresh3, hfresh2]
    have hb3 : lookupA eng3p.storage.bundles eng3p.fresh = none := by
      rw [hbun3, hbun2, hfresh2, hfr3]
      apply lookupA_eq_none
      intro p hp
      rcases List.mem_append.mp hp with hp2 | hp2
      · rcases List.mem_append.mp hp2 with h | h
        · exact ne_of_lt_le (hbids p h) (Nat.le_add_right _ _)
        · rw [List.mem_singleton] at h
          subst h
          show eng.fresh ≠ eng.fresh + 4
          omega
      · rw [List.mem_singleton] at hp2
        subst hp2
        show eng.fresh + 2 ≠ eng.fresh + 4
        omega
    have ho3 : ∀ o ∈ eng3p.storage.oplog, o.opId ≠ eng3p.fresh + 1 := by
      intro o hm
      rw [hopl3, hopl2] at hm
      rw [hfr3]
      rcases List.mem_append.mp hm with hp2 | hp2
      · rcases List.mem_append.mp hp2 with h | h
        · exact ne_of_lt_le (hops o h) (Nat.le_add_right _ 5)
        · rw [List.mem_singleton] at h
          subst h
          show eng.fresh + 1 ≠ eng.fresh + 4 + 1
          omega
      · rw [List.mem_singleton] at hp2
        subst hp2
        rw [hfresh2]
        show eng.fresh + 2 + 1 ≠ eng.fresh + 4 + 1
        omega
    obtain ⟨eng4p, hrun3, hf4, hent4, hfac4, hedg4, hep4, hbun4, hopl4,
      hself4, hclk4, hfresh4, hov4, himpT4, himpF4⟩ :=
      executeInternal_setField ({ eng3p with redoStack := [] }) e k v false
        n3 hov3 hb3 ho3
    simp only [] at hf4 hent4 hfac4 hedg4 hep4 hbun4 hopl4 hself4 hclk4
    simp only [] at hfresh4
    have hfix : redoFixups eng3p.storage [.setField e k v] =
        [.setField e k v] := by
      simp [redoFixups]
    have hredo : Engine.redo
        ({ eng3p with
            redoStack := eng3p.redoStack ++
              [⟨eng.fresh, tick eng.clock n1, [.setField e k v],
                captureSnapshot eng.storage [.setField e k v]⟩] } : Engine)
        n3 =
      .ok
        ({ eng4p with
            undoStack := pushUndo eng4p.undoStack
              ⟨eng3p.fresh, tick eng3p.clock n3, [.setField e k v],
                captureSnapshot eng3p.storage [.setField e k v]⟩ },
          .applied eng3p.fresh) := by
      unfold Engine.redo
      simp only []
      rw [hrdse3, hrds2]
      simp only [List.nil_append, List.getLast?_singleton,
        List.dropLast_single]
      rw [hfix]
      rw [hrun3]
    have hlt34 : Hlc.ltb (tick eng2.clock n2) (tick eng3p.clock n3) =
        true := by
      rw [hclk3]
      exact tick_gt _ _
    have hlk4 : lookupA eng4p.storage.fields (e, k) =
        some ⟨some v, eng3p.fresh + 1, eng3p.selfActor,
          tick eng3p.clock n3⟩ := by
      rw [hf4, lookupA_lwwUpsert_self, hlk3]
      simp only []
      rw [if_pos (keyLtb_of_ltb _ _ hlt34)]
    have hgf4 : ∀ e2 k2, getField eng4p.storage e2 k2 =
        getField eng2.storage e2 k2 := by
      intro e2 k2
      by_cases hek : (e, k) = (e2, k2)
      · injection hek with he hk
        subst he
        subst hk
        have hl4 : getField eng4p.storage e k = some v := by
          unfold getField
          rw [hlk4]
        have hl2 : getField eng2.storage e k = some v := by
          unfold getField
          rw [hlk2]
        rw [hl4, hl2]
      · unfold getField
        rw [hf4, lookupA_lwwUpsert_other _ _ _ _ hek, hf3,
          lookupA_lwwUpsert_other _ _ _ _ hek]
    exact ⟨eng2,
      { eng3p with redoStack := eng3p.redoStack ++
          [⟨eng.fresh, tick eng.clock n1, [.setField e k v],
            captureSnapshot eng.storage [.setField e k v]⟩] },
      { eng4p with
        undoStack := pushUndo eng4p.undoStack
          ⟨eng3p.fresh, tick eng3p.clock n3, [.setField e k v],
            captureSnapshot eng3p.storage [.setField e k v]⟩ },
      eng2.fresh, eng3p.fresh, hrun1, hundo, hredo,
      hgf3, hent3.trans hent2, hfac3.trans hfac2, hedg3.trans hedg2,
      hgf4, hent4.trans hent3, hfac4.trans hfac3, hedg4.trans hedg3⟩
  | none =>
    obtain ⟨eng3p, hrun2, hf3, hent3, hfac3, hedg3, hep3, hbun3, hopl3,
      hself3, hclk3, hfresh3, hov3, himpF3⟩ :=
      executeInternal_clearField
        ({ eng2 with undoStack := eng2.undoStack.dropLast }) e k false
        n2 hov2 hb2 ho2
    simp only [] at hf3 hent3 hfac3 hedg3 hep3 hbun3 hopl3 hself3 hclk3
    simp only [] at hfresh3
    obtain ⟨hstk3, hrdse3⟩ := himpF3 rfl
    simp only [] at hrdse3
    have hinv : computeInverse ⟨eng.fresh, tick eng.clock n1,
        [.setField e k v], captureSnapshot eng.storage [.setField e k v]⟩ =
        [.clearField e k] := by
      simp [computeInverse, captureSnapshot, hgf]
    have hundo : Engine.undo eng2 n2 = .ok
        ({ eng3p with redoStack := eng3p.redoStack ++
            [⟨eng.fresh, tick eng.clock n1, [.setField e k v],
              captureSnapshot eng.storage [.setField e k v]⟩] },
          .applied eng2.fresh) := by
      unfold Engine.undo
      rw [hlast]
      simp only []
      rw [hconfs]
      simp only [List.isEmpty_nil, ite_true]
      rw [hinv]
      simp only [List.map_cons, List.map_nil, undoFixup]
      rw [hrun2]
    have hlt23 : Hlc.ltb (tick eng.clock n1) (tick eng2.clock n2) = true := by
      rw [hclk2]
      exact tick_gt _ _
    have hlk3 : lookupA eng3p.storage.fields (e, k) =
        some ⟨none, eng2.fresh + 1, eng2.selfActor, tick eng2.clock n2⟩ := by
      rw [hf3, lookupA_lwwUpsert_self, hlk2]
      simp only []
      rw [if_pos (keyLtb_of_ltb _ _ hlt23)]
    have hgf3 : ∀ e2 k2, getField eng3p.storage e2 k2 =
        getField eng.storage e2 k2 := by
      intro e2 k2
      by_cases hek : (e, k) = (e2, k2)
      · injection hek with he hk
        subst he
        subst hk
        have hl : getField eng3p.storage e k = none := by
          unfold getField
          rw [hlk3]
        rw [hl, hgf]
      · unfold getField
        rw [hf3, lookupA_lwwUpsert_other _ _ _ _ hek, hf2,
          lookupA_lwwUpsert_other _ _ _ _ hek]
    have hfr3 : eng3p.fresh = eng.fresh + 4 := by
      rw [hfresh3, hfresh2]
    have hb3 : lookupA eng3p.storage.bundles eng3p.fresh = none := by
      rw [hbun3, hbun2, hfresh2, hfr3]
      apply lookupA_eq_none
      intro p hp
      rcases List.mem_append.mp hp with hp2 | hp2
      · rcases List.mem_append.mp hp2 with h | h
        · exact ne_of_lt_le (hbids p h) (Nat.le_add_right _ _)
        · rw [List.mem_singleton] at h
          subst h
          show eng.fresh ≠ eng.fresh + 4
          omega
      · rw [List.mem_singleton] at hp2
        subst hp2
        show eng.fresh + 2 ≠ eng.fresh + 4
        omega
    have ho3 : ∀ o ∈ eng3p.storage.oplog, o.opId ≠ eng3p.fresh + 1 := by
      intro o hm
      rw [hopl3, hopl2] at hm
      rw [hfr3]
      rcases List.mem_append.mp hm with hp2 | hp2
      · rcases List.mem_append.mp hp2 with h | h
        · exact ne_of_lt_le (hops o h) (Nat.le_add_right _ 5)
        · rw [List.mem_singleton] at h
          subst h
          show eng.fresh + 1 ≠ eng.fresh + 4 + 1
          omega
      · rw [List.mem_singleton] at hp2
        subst hp2
        rw [hfresh2]
        show eng.fresh + 2 + 1 ≠ eng.fresh + 4 + 1
        omega
    obtain ⟨eng4p, hrun3, hf4, hent4, hfac4, hedg4, hep4, hbun4, hopl4,
      hself4, hclk4, hfresh4, hov4, himpT4, himpF4⟩ :=
      executeInternal_setField ({ eng3p with redoStack := [] }) e k v false
        n3 hov3 hb3 ho3
    simp only [] at hf4 hent4 hfac4 hedg4 hep4 hbun4 hopl4 hself4 hclk4
    simp only [] at hfresh4
    have hfix : redoFixups eng3p.storage [.setField e k v] =
        [.setField e k v] := by
      simp [redoFixups]
    have hredo : Engine.redo
        ({ eng3p with
            redoStack := eng3p.redoStack ++
              [⟨eng.fresh, tick eng.clock n1, [.setField e k v],
                captureSnapshot eng.storage [.setField e k v]⟩] } : Engine)
        n3 =
      .ok
        ({ eng4p with
            undoStack := pushUndo eng4p.undoStack
              ⟨eng3p.fresh, tick eng3p.clock n3, [.setField e k v],
                captureSnapshot eng3p.storage [.setField e k v]⟩ },
          .applied eng3p.fresh) := by
      unfold Engine.redo
      simp only []
      rw [hrdse3, hrds2]
      simp only [List.nil_append, List.getLast?_singleton,
        List.dropLast_single]
      rw [hfix]
      rw [hrun3]
    have hlt34 : Hlc.ltb (tick eng2.clock n2) (tick eng3p.clock n3) =
        true := by
      rw [hclk3]
      exact tick_gt _ _
    have hlk4 : lookupA eng4p.storage.fields (e, k) =
        some ⟨some v, eng3p.fresh + 1, eng3p.selfActor,
          tick eng3p.clock n3⟩ := by
      rw [hf4, lookupA_lwwUpsert_self, hlk3]
      simp only []
      rw [if_pos (keyLtb_of_ltb _ _ hlt34)]
    have hgf4 : ∀ e2 k2, getField eng4p.storage e2 k2 =
        getField eng2.storage e2 k2 := by
      intro e2 k2
      by_cases hek : (e, k) = (e2, k2)
      · injection hek with he hk
        subst he
        subst hk
        have hl4 : getField eng4p.storage e k = some v := by
          unfold getField
          rw [hlk4]
        have hl2 : getField eng2.storage e k = some v := by
          unfold getField
          rw [hlk2]
        rw [hl4, hl2]
      · unfold getField
        rw [hf4, lookupA_lwwUpsert_other _ _ _ _ hek, hf3,
          lookupA_lwwUpsert_other _ _ _ _ hek]
    exact ⟨eng2,
      { eng3p with redoStack := eng3p.redoStack ++
          [⟨eng.fresh, tick eng.clock n1, [.setField e k v],
            captureSnapshot eng.storage [.setField e k v]⟩] },
      { eng4p with
        undoStack := pushUndo eng4p.undoStack
          ⟨eng3p.fresh, tick eng3p.clock n3, [.setField e k v],
            captureSnapshot eng3p.storage [.setField e k v]⟩ },
      eng2.fresh, eng3p.fresh, hrun1, hundo, hredo,
      hgf3, hent3.trans hent2, hfac3.trans hfac2, hedg3.trans hedg2,
      hgf4, hent4.trans hent3, hfac4.trans hfac3, hedg4.trans hedg3⟩

/-- C7 witness engine: one entity, one live field, empty stacks. -/
def c7Eng : Engine :=
  { selfActor := 1, clock := ⟨100, 0⟩,
    storage := { Storage.empty with
      entities := [(9, ⟨⟨50, 0⟩, 1, 30, none, none, none⟩)],
      fields := [((9, "f"), ⟨some 3, 40, 1, ⟨90, 0⟩⟩)] },
    undoStack := [], redoStack := [], activeOverlay := none, fresh := 500 }

/-- Witness for the amended C7 theorem at a concrete SetField run. -/
theorem setfield_undo_redo_roundtrip_witness :
    ∃ eng2 eng3 eng4 bid2 bid3,
      executeInternal c7Eng .userEdit [.setField 9 "f" 8] true 200 =
        .ok (eng2, c7Eng.fresh, tick c7Eng.clock 200) ∧
      Engine.undo eng2 300 = .ok (eng3, .applied bid2) ∧
      Engine.redo eng3 400 = .ok (eng4, .applied bid3) ∧
      (∀ e2 k2, getField eng3.storage e2 k2 = getField c7Eng.storage e2 k2) ∧
      eng3.storage.entities = c7Eng.storage.entities ∧
      eng3.storage.facets = c7Eng.storage.facets ∧
      eng3.storage.edges = c7Eng.storage.edges ∧
      (∀ e2 k2, getField eng4.storage e2 k2 = getField eng2.storage e2 k2) ∧
      eng4.storage.entities = eng2.storage.entities ∧
      eng4.storage.facets = eng2.storage.facets ∧
      eng4.storage.edges = eng2.storage.edges := by
  exact setfield_undo_redo_roundtrip c7Eng 9 "f" 8 200 300 400 rfl
    (by decide) (by decide) (by decide)
    (by
      intro r hr
      injection hr with h
      subst h
      decide)

/-- C7 counterexample engine: entity 9 already carries an ATTACHED facet
`"task"`. -/
def c7CEng : Engine :=
  { selfActor := 1, clock := ⟨600, 0⟩,
    storage := { Storage.empty with
      entities := [(9, ⟨⟨50, 0⟩, 1, 30, none, none, none⟩)],
      facets := [((9, "task"), ⟨⟨60, 0⟩, 1, 30, none, none, none, none⟩)] },
    undoStack := [], redoStack := [], activeOverlay := none, fresh := 700 }

/-- C7 counterexample: execute an undoable `AttachFacet` on an entity whose
facet is ALREADY attached, then undo.  `compute_inverse` turns AttachFacet
into DetachFacet(preserve=true) unconditionally — ignoring the snapshot's
`was_attached` — so `do; undo` leaves the facet DETACHED although it was
attached in the pre-state: the round trip does not restore facet
attachment. -/
theorem attach_undo_breaks_roundtrip :
    (getFacets c7CEng.storage 9).any
        (fun f => f.facetType == "task" && !f.detached) = true ∧
    ∃ eng2 bid1 h1 eng3 bid2,
      executeInternal c7CEng .userEdit [.attachFacet 9 "task"] true 700 =
        .ok (eng2, bid1, h1) ∧
      Engine.undo eng2 800 = .ok (eng3, .applied bid2) ∧
      (getFacets eng3.storage 9).any
        (fun f => f.facetType == "task" && !f.detached) = false := by
  exact ⟨rfl, _, _, _, _, _, rfl, rfl, rfl⟩

end OpenProd
